import Mathlib

/-!
# OpenHashAPI client: argument and configuration validation, request construction

A shallow embedding of the Go sources `internal/models/models.go`,
`internal/config/config.go`, `internal/api/api.go` and `main.go`.

Conventions of the embedding.

* A Go `string` is a read-only sequence of bytes, so it is a `List UInt8` here and
  `len(s)` is the length of that list.  Text constants of the source are written
  with `go "..."`, the UTF-8 bytes of the literal.
* `regexp.MustCompile(p).MatchString` is given by a small backtracking matcher over
  the syntax tree of `p`.  Go's matcher works on runes; every class and literal of
  the patterns in this program is ASCII, a rune of two or more bytes consists of
  bytes `0x80` and above only, and an ASCII class matches none of them, so matching
  byte by byte accepts exactly the same strings.
* A Go `error` is `Option GoString`: `none` is `nil`, `some msg` an error with that
  message.  A function that can hit a run-time panic returns an `Outcome`.
-/

namespace OHA

/-- A Go string: a sequence of bytes. -/
abbrev GoString := List UInt8

/-- The bytes (UTF-8) of a text constant of the source. -/
def go (s : String) : GoString := s.data.flatMap String.utf8EncodeChar

/-- A Go `error` value: `none` is `nil`. -/
abbrev error := Option GoString

/-- How a Go call ends: it returns a value, or a run-time panic unwinds it. -/
inductive Outcome (α : Type) where
  | ret (a : α)
  | panicked
deriving DecidableEq, Repr

/-! ## Regular expressions (`regexp`) -/

/-- Syntax of the regular expressions used by the program. -/
inductive Regex where
  /-- The empty expression. -/
  | eps
  /-- The anchor `^`: beginning of the text (no multi-line flag is ever set). -/
  | bol
  /-- The anchor `$`: end of the text. -/
  | eol
  /-- One literal byte. -/
  | lit (c : UInt8)
  /-- A bracket class `[...]`, as its list of inclusive ranges `lo-hi`. -/
  | cls (ranges : List (UInt8 × UInt8))
  /-- Concatenation. -/
  | seq (a b : Regex)
  /-- Repetition `r*`. -/
  | star (r : Regex)
  /-- Repetition `r+`. -/
  | plus (r : Regex)
  /-- Option `r?`. -/
  | opt (r : Regex)

namespace Regex

/-- Membership of a byte in a bracket class. -/
def inClass (ranges : List (UInt8 × UInt8)) (b : UInt8) : Bool :=
  ranges.any (fun r => r.1.toNat ≤ b.toNat && b.toNat ≤ r.2.toNat)

/-- The check that a class and an alphabet have the same bytes: each byte of the alphabet
is in the class, and each byte of each range is in the alphabet. -/
def sameBytes (ranges : List (UInt8 × UInt8)) (alphabet : GoString) : Bool :=
  alphabet.all (inClass ranges) &&
  ranges.all (fun r => (List.range' r.1.toNat (r.2.toNat + 1 - r.1.toNat)).all
    (fun n => alphabet.contains (UInt8.ofNat n)))

/-- The range of a single byte, for a class item such as `_`. -/
def one (c : Char) : UInt8 × UInt8 := (c.toNat.toUInt8, c.toNat.toUInt8)

/-- The range `lo-hi` of a class. -/
def range (lo hi : Char) : UInt8 × UInt8 := (lo.toNat.toUInt8, hi.toNat.toUInt8)

/-- The literal byte of an ASCII character. -/
def chr (c : Char) : Regex := lit c.toNat.toUInt8

/-- Concatenation of a list of expressions. -/
def cat : List Regex → Regex
  | [] => eps
  | [r] => r
  | r :: rs => seq r (cat rs)

/-- A matcher state: whether no byte has been consumed yet from the beginning of
the text, and the bytes still to read. -/
abbrev Pos := Bool × GoString

/-- Iterates `step` zero or more times; an iteration that consumes nothing adds no
new state, so `n` iterations with `n` the number of bytes left are enough. -/
def iter (step : Bool → GoString → List Pos) : Nat → Bool → GoString → List Pos
  | 0, st, s => [(st, s)]
  | n + 1, st, s =>
    (st, s) :: ((step st s).filter (fun x => x.2.length < s.length)).flatMap
      (fun x => iter step n x.1 x.2)

/-- All the states reachable by matching `r` at the given state. -/
def run : Regex → Bool → GoString → List Pos
  | eps, st, s => [(st, s)]
  | bol, st, s => if st then [(st, s)] else []
  | eol, st, s => if s.isEmpty then [(st, s)] else []
  | lit c, _, s =>
    match s with
    | b :: t => if b = c then [(false, t)] else []
    | [] => []
  | cls rs, _, s =>
    match s with
    | b :: t => if inClass rs b then [(false, t)] else []
    | [] => []
  | seq a b, st, s => (run a st s).flatMap (fun x => run b x.1 x.2)
  | star r, st, s => iter (run r) s.length st s
  | plus r, st, s => (run r st s).flatMap (fun x => iter (run r) x.2.length x.1 x.2)
  | opt r, st, s => run r st s ++ [(st, s)]

/-- Whether `r` matches at the current offset or at a later one. -/
def search (r : Regex) : Bool → GoString → Bool
  | st, [] => !(run r st []).isEmpty
  | st, b :: t => !(run r st (b :: t)).isEmpty || search r false t

/-- The method `(*Regexp).MatchString`: the text contains a match of `r`. -/
def MatchString (r : Regex) (s : GoString) : Bool := search r true s

end Regex

/-! ## `internal/models/models.go` -/

namespace models

open Regex

/-- The Configuration struct is used to load configuration files. -/
structure Configuration where
  ServerURL : GoString
  ServerPort : GoString
  ServerAPIRoute : GoString
  ClientUsername : GoString
  ClientPassword : GoString
deriving DecidableEq, Repr

/-- The pattern `^[0-9]+$`. -/
def reInt : Regex := cat [bol, plus (cls [range '0' '9']), eol]

/-- The pattern of IsStringValidFileName: one or more of the letters, the digits,
`_`, `.`, `-` and `/`, anchored at both ends. -/
def reFileName : Regex :=
  cat [bol, plus (cls [range 'a' 'z', range 'A' 'Z', range '0' '9',
    one '_', one '.', one '-', one '/']), eol]

/-- The pattern `^[a-zA-Z0-9!@#$%^&*()_+=.-]*$`. -/
def reQuery : Regex :=
  cat [bol, star (cls [range 'a' 'z', range 'A' 'Z', range '0' '9',
    one '!', one '@', one '#', one '$', one '%', one '^', one '&', one '*',
    one '(', one ')', one '_', one '+', one '=', one '.', one '-']), eol]

/-- The pattern `^https?:\/\/[a-zA-Z0-9-]+\.[a-zA-Z0-9-]+`. -/
def reServerURL : Regex :=
  cat [bol, chr 'h', chr 't', chr 't', chr 'p', opt (chr 's'), chr ':', chr '/', chr '/',
    plus (cls [range 'a' 'z', range 'A' 'Z', range '0' '9', one '-']),
    chr '.',
    plus (cls [range 'a' 'z', range 'A' 'Z', range '0' '9', one '-'])]

/-- The pattern `^[0-9]+`. -/
def rePort : Regex := cat [bol, plus (cls [range '0' '9'])]

/-- The pattern `^[a-zA-Z0-9]`. -/
def reUsername : Regex := cat [bol, cls [range 'a' 'z', range 'A' 'Z', range '0' '9']]

/-- The ASCII digits `0` to `9`. -/
def digits : GoString := go "0123456789"

/-- The letters and digits `a-z`, `A-Z`, `0-9`. -/
def alphanumerics : GoString :=
  go "abcdefghijklmnopqrstuvwxyzABCDEFGHIJKLMNOPQRSTUVWXYZ0123456789"

/-- The characters allowed in a file name: letters, digits, `_`, `.`, `-`, `/`. -/
def fileNameChars : GoString := alphanumerics ++ go "_.-/"

/-- The characters allowed in a query string: letters, digits and `!@#$%^&*()_+=.-`. -/
def queryChars : GoString := alphanumerics ++ go "!@#$%^&*()_+=.-"

/-- IsStringInt validates if a string is an integer. -/
def IsStringInt (str : GoString) : Bool :=
  if MatchString reInt str == false then false else true

/-- IsStringValidFileName validates if a string only contains expected characters. -/
def IsStringValidFileName (str : GoString) : Bool :=
  if MatchString reFileName str == false then false else true

/-- The index expression `args[index]`: `none` when it panics (index out of range). -/
def at? (args : List GoString) (index : Int) : Option GoString :=
  if 0 ≤ index then args[index.toNat]? else none

/-- ValidateIntInputArgs validates arguments provided for a valid hash algorithm. -/
def ValidateIntInputArgs (args : List GoString) (index : Int) : Outcome (GoString × error) :=
  if (args.length : Int) < index then
    .ret ([], some (go "Invalid Number Input"))
  else
    match at? args index with
    | none => .panicked
    | some a =>
      if IsStringInt a == false then
        .ret ([], some (go "Invalid Number Input: " ++ a))
      else
        .ret (a, none)

/-- ValidateQueryStringArgs validate arguments provided for the query string. -/
def ValidateQueryStringArgs (args : List GoString) (index : Int) : Outcome (GoString × error) :=
  if (args.length : Int) - 1 < index then
    .ret ([], none)
  else
    match at? args index with
    | none => .panicked
    | some a =>
      if !MatchString reQuery a then
        .ret ([], some (go "Query string contains invalid characters"))
      else
        .ret (a, none)

/-- ValidateFileInputArgs validate arguments provided for a valid file.  The file
system enters through `stat`, the error `os.Stat` reports for a name (`none` when
the call succeeds, that is, when the file exists). -/
def ValidateFileInputArgs (stat : GoString → error) (args : List GoString) (index : Int) :
    Outcome (GoString × error) :=
  if (args.length : Int) < index then
    .ret ([], some (go "file argument not found"))
  else
    match at? args index with
    | none => .panicked
    | some a =>
      match stat a with
      | some err => .ret ([], some err)
      | none =>
        if IsStringValidFileName a == false then
          .ret ([], some (go "Filename contained invalid characters"))
        else
          .ret (a, none)

/-- What a call wrote to standard output, with what it returned. -/
structure Printed (α : Type) where
  stdout : GoString
  ret : α
deriving DecidableEq, Repr

/-- The text of `fmt.Println(config)`: the fields in braces, separated by spaces. -/
def printlnConfig (config : Configuration) : GoString :=
  go "\x7b" ++ config.ServerURL ++ go " " ++ config.ServerPort ++ go " " ++
    config.ServerAPIRoute ++ go " " ++ config.ClientUsername ++ go " " ++
    config.ClientPassword ++ go "\x7d" ++ go "\n"

/-- The text `fmt.Sprintf("https://%s:%s%s", ServerURL, ServerPort, ServerAPIRoute)`. -/
def serverURL (config : Configuration) : GoString :=
  go "https://" ++ config.ServerURL ++ go ":" ++ config.ServerPort ++ config.ServerAPIRoute

/-- ValidateConfig validates the config from ENV vars. -/
def ValidateConfig (config : Configuration) : Printed error :=
  if !MatchString reServerURL (serverURL config) then
    ⟨[], some (go "invalid server URL")⟩
  else if !MatchString rePort config.ServerPort then
    ⟨[], some (go "invalid server port")⟩
  else if config.ClientUsername.length < 3 || !MatchString reUsername config.ClientUsername then
    ⟨[], some (go "Invalid username. Expected at least 3 alphanumeric characters. Got: "
      ++ config.ClientUsername)⟩
  else if config.ClientPassword.length < 12 then
    ⟨printlnConfig config, some (go ("passwords must be at least 12 characters long and " ++
      "contain a mix of uppercase, lowercase letters, and at least one digit and one " ++
      "special character"))⟩
  else
    ⟨[], none⟩

/-- How the file at a path presents itself to `LoadConfig`. -/
inductive FileState where
  /-- The call `os.Stat` fails. -/
  | missing
  /-- The call `os.Open` fails. -/
  | unopenable
  /-- The call `io.ReadAll` fails. -/
  | unreadable
  /-- The file is read in full. -/
  | content (bytes : GoString)
deriving DecidableEq, Repr

/-- LoadConfig parses provided JSON configuration file.  The file system enters through
`fs`, and `unmarshal` is `json.Unmarshal` into a `Configuration`. -/
def LoadConfig (fs : GoString → FileState) (unmarshal : GoString → Configuration × error)
    (directory : GoString) : Printed (Configuration × error) :=
  match fs directory with
  | .missing => ⟨[], (⟨[], [], [], [], []⟩, some (go "Config file not found: " ++ directory))⟩
  | .unopenable => ⟨[], (⟨[], [], [], [], []⟩, some (go "Error opening file: " ++ directory))⟩
  | .unreadable => ⟨[], (⟨[], [], [], [], []⟩, some (go "Error reading file: " ++ directory))⟩
  | .content byteResult =>
    match unmarshal byteResult with
    | (_, some err) =>
      ⟨err ++ go "\n", (⟨[], [], [], [], []⟩, some (go "Error parsing file: " ++ directory))⟩
    | (conf, none) => ⟨[], (conf, none)⟩

end models

/-! ## `internal/config/config.go` -/

namespace config

open models

/-- PrintColor controls printing colored text to the CLI; every call site passes the format
`%s`, so the text is `s` between the colour escape sequences.  For a colour that is not
named the source rolls one at random: `roll` is that value of `rand.Intn(6)`. -/
def PrintColor (s : GoString) (c : GoString) (roll : Nat) : GoString :=
  let code : Nat :=
    if c = go "red" then 31
    else if c = go "green" then 32
    else if c = go "yellow" then 33
    else if c = go "blue" then 34
    else if c = go "magenta" then 35
    else if c = go "cyan" then 36
    else roll % 6 + 31
  go "\x1b[" ++ go (Nat.repr code) ++ go "m" ++ s ++ go "\x1b[0m"

/-- CheckError is a general error handler: on an error it prints it in red and calls
`os.Exit(1)`; the result is the text printed and the exit status, if the process exits. -/
def CheckError (err : error) : Printed (Option Nat) :=
  match err with
  | some msg => ⟨PrintColor (go "error: " ++ msg ++ go "\n") (go "red") 0 ++ go "\n", some 1⟩
  | none => ⟨[], none⟩

end config

/-! ## `main.go` -/

namespace main

open models config

/-- The process environment: a map from variable names to values. -/
abbrev Environ := GoString → Option GoString

/-- The call `os.Getenv`: the value of the variable, empty when it is not set. -/
def Getenv (env : Environ) (key : String) : GoString := (env (go key)).getD []

/-- The process after `init`: what was printed, the status of `os.Exit` when the process has
terminated, and the package variables `configFile` and `OHAServerURL`. -/
structure Started where
  stdout : GoString
  exit : Option Nat
  configFile : Configuration
  OHAServerURL : GoString
deriving DecidableEq, Repr

/-- The message of `init` when neither the file nor the environment configures the client. -/
def unauthenticated : GoString :=
  PrintColor (go ("[!] Unauthenticated. Please fill out Env vars or place a configuration " ++
    "file at ~/.oha")) (go "red") 0 ++ go "\n"

/-- The path `$HOME/.oha` of the configuration file. -/
def configPath (env : Environ) : GoString := Getenv env "HOME" ++ go "/.oha"

/-- The end of `init`: validation of `configFile`, then the assignment of `OHAServerURL`. -/
def validateAndSet (out : GoString) (configFile : Configuration) : Started :=
  let v := ValidateConfig configFile
  let chk := CheckError v.ret
  match chk.ret with
  | some status => ⟨out ++ v.stdout ++ chk.stdout, some status, configFile, []⟩
  | none => ⟨out ++ v.stdout ++ chk.stdout, none, configFile, serverURL configFile⟩

/-- The function `init` of package main. -/
def init (fs : GoString → FileState) (unmarshal : GoString → Configuration × error)
    (env : Environ) : Started :=
  let loaded := LoadConfig fs unmarshal (configPath env)
  let configFile := loaded.ret.1
  match loaded.ret.2 with
  | some _ =>
    let configFile := if Getenv env "CLIENT_USERNAME" ≠ [] then
      { configFile with ClientUsername := Getenv env "CLIENT_USERNAME" } else configFile
    let configFile := if Getenv env "SERVER_URL" ≠ [] then
      { configFile with ServerURL := Getenv env "SERVER_URL" } else configFile
    let configFile := if Getenv env "SERVER_PORT" ≠ [] then
      { configFile with ServerPort := Getenv env "SERVER_PORT" } else configFile
    let configFile := if Getenv env "SERVER_API" ≠ [] then
      { configFile with ServerAPIRoute := Getenv env "SERVER_API" } else configFile
    let configFile := if Getenv env "CLIENT_PASSWORD" ≠ [] then
      { configFile with ClientPassword := Getenv env "CLIENT_PASSWORD" } else configFile
    if Getenv env "CLIENT_USERNAME" = [] ∨ Getenv env "SERVER_URL" = [] ∨
        Getenv env "SERVER_PORT" = [] ∨ Getenv env "SERVER_API" = [] ∨
        Getenv env "CLIENT_PASSWORD" = [] then
      ⟨loaded.stdout ++ unauthenticated, some 1, configFile, []⟩
    else
      validateAndSet loaded.stdout configFile
  | none => validateAndSet loaded.stdout configFile

/-- The five variables that configure the client when there is no file. -/
def requiredVars : List String :=
  ["CLIENT_USERNAME", "SERVER_URL", "SERVER_PORT", "SERVER_API", "CLIENT_PASSWORD"]

end main

/-! ## JSON documents and `fmt` -/

/-- A JSON document as `encoding/json` holds it in an `interface{}` value.  A number is a
`float64`; nothing here computes with numbers, so one is kept as the text `%v` prints for
it.  The members of an object have distinct names. -/
inductive JSON where
  | null
  | bool (b : Bool)
  | number (text : GoString)
  | str (s : GoString)
  | array (elems : List JSON)
  | object (members : List (GoString × JSON))

namespace JSON

/-- The map index expression `m[key]`: the member of that name, `nil` when there is none. -/
def lookup (m : List (GoString × JSON)) (key : String) : JSON :=
  match m.find? (fun kv => kv.1 = go key) with
  | some kv => kv.2
  | none => null

/-- The order of Go strings: byte by byte. -/
def bytesLt : GoString → GoString → Bool
  | [], [] => false
  | [], _ :: _ => true
  | _ :: _, [] => false
  | a :: s, b :: t => a.toNat < b.toNat || (a = b && bytesLt s t)

/-- Insertion into a list of printed members ordered by name. -/
def insertByKey (kv : GoString × GoString) :
    List (GoString × GoString) → List (GoString × GoString)
  | [] => [kv]
  | x :: xs => if bytesLt kv.1 x.1 then kv :: x :: xs else x :: insertByKey kv xs

mutual
/-- What `fmt` prints under the verb `%s` for a value inside a slice or a map. -/
def fmtValueS : JSON → GoString
  | null => go "<nil>"
  | bool b => go "%!s(bool=" ++ (if b then go "true" else go "false") ++ go ")"
  | number t => go "%!s(float64=" ++ t ++ go ")"
  | str s => s
  | array xs => go "[" ++ (go " ").intercalate (fmtElemsS xs) ++ go "]"
  | object ms => go "map[" ++ (go " ").intercalate
      (((fmtMembersS ms).foldr insertByKey []).map (fun kv => kv.1 ++ go ":" ++ kv.2)) ++ go "]"
/-- The elements of a slice under `%s`. -/
def fmtElemsS : List JSON → List GoString
  | [] => []
  | x :: xs => fmtValueS x :: fmtElemsS xs
/-- The members of a map under `%s`. -/
def fmtMembersS : List (GoString × JSON) → List (GoString × GoString)
  | [] => []
  | (k, v) :: ms => (k, fmtValueS v) :: fmtMembersS ms
end

/-- What `fmt.Sprintf("%s", v)` gives for an operand `v` of type `interface{}`. -/
def fmtS : JSON → GoString
  | null => go "%!s(<nil>)"
  | v => fmtValueS v

end JSON

/-! ## UTF-8 (`unicode/utf8`) and the strings of `encoding/json` -/

namespace utf8

/-- Whether a byte lies in the inclusive range `lo` to `hi`. -/
def within (lo hi : Nat) (b : UInt8) : Bool := lo ≤ b.toNat && b.toNat ≤ hi

/-- The width of the UTF-8 sequence at the head of the text, as `utf8.DecodeRuneInString`
finds it: 1 for an ASCII byte, 2 to 4 for a lead byte in `C2`..`F4` followed by the
continuation bytes its range table accepts, and 0 when the head is not a valid sequence
(the decoder then reports `RuneError` with width 1) or the text is empty. -/
def runeLen : GoString → Nat
  | [] => 0
  | b0 :: rest =>
    let x := b0.toNat
    if x < 0x80 then 1
    else if x < 0xC2 then 0
    else if x < 0xE0 then
      match rest with
      | b1 :: _ => if within 0x80 0xBF b1 then 2 else 0
      | _ => 0
    else if x < 0xF0 then
      match rest with
      | b1 :: b2 :: _ =>
        if within (if x = 0xE0 then 0xA0 else 0x80) (if x = 0xED then 0x9F else 0xBF) b1 &&
          within 0x80 0xBF b2 then 3 else 0
      | _ => 0
    else if x < 0xF5 then
      match rest with
      | b1 :: b2 :: b3 :: _ =>
        if within (if x = 0xF0 then 0x90 else 0x80) (if x = 0xF4 then 0x8F else 0xBF) b1 &&
          within 0x80 0xBF b2 && within 0x80 0xBF b3 then 4 else 0
      | _ => 0
    else 0

/-- The function `utf8.ValidString`, with `skip` bytes of the current sequence still to
pass: every sequence of the text is valid. -/
def validFrom : Nat → GoString → Bool
  | _, [] => true
  | skip + 1, _ :: rest => validFrom skip rest
  | 0, b :: rest =>
    match runeLen (b :: rest) with
    | 0 => false
    | n + 1 => validFrom n rest

/-- The function `utf8.ValidString`: the text is valid UTF-8. -/
def ValidString (s : GoString) : Bool := validFrom 0 s

/-- The coercion of `encoding/json` when it writes a string, with `skip` bytes of the
current sequence still to copy: a valid sequence is copied, a byte that begins no valid
sequence is replaced by U+FFFD (the bytes `EF BF BD`) and the scan goes on at the next
byte. -/
def coerceFrom : Nat → GoString → GoString
  | _, [] => []
  | skip + 1, b :: rest => b :: coerceFrom skip rest
  | 0, b :: rest =>
    match runeLen (b :: rest) with
    | 0 => 0xEF :: 0xBF :: 0xBD :: coerceFrom 0 rest
    | n + 1 => b :: coerceFrom n rest

/-- The string that `json.Marshal` writes for a Go string: the string coerced to valid
UTF-8, each invalid byte replaced by the Unicode replacement rune. -/
def coerce (s : GoString) : GoString := coerceFrom 0 s

end utf8

/-! ## `internal/api/api.go` -/

namespace api

open models

/-- The text of a request body.  JSON text written by `json.Marshal` is identified with
the document it encodes (the strings of the document are the strings as they are written,
coerced to valid UTF-8); `raw` is a text sent as it is. -/
inductive Body where
  | json (doc : JSON)
  | raw (bytes : GoString)

/-- An HTTP request as it is handed to `client.Do`. -/
structure Request where
  method : GoString
  url : GoString
  header : List (GoString × GoString)
  body : Option Body

/-- An HTTP response body: its bytes, and the value `json.Unmarshal` decodes them to
(`none` when they are not JSON text). -/
structure Response where
  text : GoString
  doc : Option JSON

/-- The world outside the process. -/
structure World where
  /-- Opening and reading a file: its content, or the error of `os.Open`. -/
  readFile : GoString → Except GoString GoString
  /-- The error of `http.NewRequest` for a URL (`none`: the URL is accepted). -/
  newRequest : GoString → error
  /-- The calls `client.Do` and `io.ReadAll`: the response body, or the transport error. -/
  roundTrip : Request → Except GoString Response

/-- A value together with the requests handed to the HTTP client on the way. -/
structure Sent (α : Type) where
  sent : List Request
  ret : α

/-- One run of a command handler: the requests handed to the HTTP client, the text written
to standard output, and how the call ended. -/
structure Run where
  sent : List Request
  stdout : GoString
  result : Outcome error

/-- PostRequest sends an HTTP POST request to the specified URL and route with the given
data; a non-empty `jwt` adds an Authorization header. -/
def PostRequest (w : World) (url route : GoString) (data : Body) (jwt : GoString) :
    Sent (Except GoString Response) :=
  let reqURL := url ++ route
  match w.newRequest reqURL with
  | some err => ⟨[], .error err⟩
  | none =>
    let auth := if jwt ≠ [] then [(go "Authorization", go "Bearer " ++ jwt)] else []
    let req : Request :=
      ⟨go "POST", reqURL, auth ++ [(go "Content-Type", go "application/json")], some data⟩
    ⟨[req], w.roundTrip req⟩

/-- The constant `bufio.MaxScanTokenSize`: the size of the buffer of a `bufio.Scanner`. -/
def MaxScanTokenSize : Nat := 64 * 1024

/-- The helper `dropCR` of `bufio.ScanLines`: drops one terminal carriage return. -/
def dropCR (data : GoString) : GoString :=
  if data.getLast? = some 13 then data.dropLast else data

/-- The tokens of `bufio.NewScanner(file)` under the default split function `ScanLines`,
one for each successful `Scan`; `cur` holds the bytes of the line read so far.  A line ends
at a newline or at the end of the file; the scanner stops with `ErrTooLong` at a line that
fills the buffer before its newline. -/
def scanLinesFrom : GoString → GoString → List GoString
  | cur, [] => if cur = [] ∨ MaxScanTokenSize ≤ cur.length then [] else [dropCR cur]
  | cur, b :: rest =>
    if b = 10 then
      if MaxScanTokenSize ≤ cur.length then [] else dropCR cur :: scanLinesFrom [] rest
    else
      scanLinesFrom (cur ++ [b]) rest

/-- The loop `for filescanner.Scan() { fileHashes = append(fileHashes, filescanner.Text()) }`
from the nil slice.  A `[]string` is a list; the slices of this program are built by
`append` from nil only, so the empty list is the nil slice. -/
def scanLines (content : GoString) : List GoString := scanLinesFrom [] content

/-- The UploadHashes struct is used to upload new hashes. -/
structure UploadHashes where
  Algorithm : GoString
  HashPlain : List GoString

/-- The SearchHashes struct is used to search for hashes. -/
structure SearchHashes where
  Data : List GoString

/-- The document `json.Marshal` writes for a `[]string`: `null` for the nil slice, and
otherwise the array of the strings, each coerced to valid UTF-8. -/
def marshalStrings (xs : List GoString) : JSON :=
  if xs.isEmpty then .null else .array (xs.map (fun x => .str (utf8.coerce x)))

/-- The document `json.Marshal` writes for an `UploadHashes`. -/
def marshalUploadHashes (v : UploadHashes) : JSON :=
  .object [(go "algorithm", .str (utf8.coerce v.Algorithm)),
    (go "hash-plain", marshalStrings v.HashPlain)]

/-- The document `json.Marshal` writes for a `SearchHashes`. -/
def marshalSearchHashes (v : SearchHashes) : JSON :=
  .object [(go "data", marshalStrings v.Data)]

/-- SubmitFounds sends a POST request to the /api/found route of the specified URL with the
hashes read from the specified file and the given algorithm. -/
def SubmitFounds (w : World) (url jwt alg infile : GoString) : Run :=
  match w.readFile infile with
  | .error err => ⟨[], [], .ret (some err)⟩
  | .ok content =>
    let fileHashes := scanLines content
    let jsondata : UploadHashes := ⟨alg, fileHashes⟩
    let encjson := marshalUploadHashes jsondata
    let post := PostRequest w url (go "/found") (.json encjson) jwt
    match post.ret with
    | .error err => ⟨post.sent, [], .ret (some err)⟩
    | .ok res => ⟨post.sent, res.text ++ go "\n", .ret none⟩

/-- The map that `json.Unmarshal(res, &body)` leaves in `body`: the members of the object,
and the nil map when the response is not a JSON object (the error is dropped). -/
def unmarshalMap (res : Response) : List (GoString × JSON) :=
  match res.doc with
  | some (.object m) => m
  | _ => []

/-- The loop of `SearchFounds` over the elements of `body["found"]`: one printed line for
each; the type assertion panics at an element that is not an object. -/
def printFounds : List JSON → Printed (Outcome Unit)
  | [] => ⟨[], .ret ()⟩
  | c :: cs =>
    match c with
    | .object m =>
      let a := JSON.lookup m "algorithm"
      let h := JSON.lookup m "hash"
      let p := JSON.lookup m "plaintext"
      let line := JSON.fmtS a ++ go " | " ++ JSON.fmtS h ++ go ":" ++ JSON.fmtS p ++ go "\n"
      let loop := printFounds cs
      ⟨line ++ loop.stdout, loop.ret⟩
    | _ => ⟨[], .panicked⟩

/-- The rendering part of `SearchFounds`, from the decoded `body`. -/
def renderFounds (body : List (GoString × JSON)) : Printed (Outcome Unit) :=
  match JSON.lookup body "found" with
  | .str s =>
    if s = go "[]" then ⟨go "" ++ go "\n", .ret ()⟩ else ⟨[], .panicked⟩
  | .array cs => printFounds cs
  | _ => ⟨[], .panicked⟩

/-- SearchFounds sends a POST request to the /api/search route of the specified URL with
the hashes read from the specified file, and prints the found hashes and their plaintext
values. -/
def SearchFounds (w : World) (url jwt infile : GoString) : Run :=
  match w.readFile infile with
  | .error err => ⟨[], [], .ret (some err)⟩
  | .ok content =>
    let fileHashes := scanLines content
    let jsondata : SearchHashes := ⟨fileHashes⟩
    let encjson := marshalSearchHashes jsondata
    let post := PostRequest w url (go "/search") (.json encjson) jwt
    match post.ret with
    | .error err => ⟨post.sent, [], .ret (some err)⟩
    | .ok res =>
      let body := unmarshalMap res
      let out := renderFounds body
      match out.ret with
      | .ret _ => ⟨post.sent, out.stdout, .ret none⟩
      | .panicked => ⟨post.sent, out.stdout, .panicked⟩

/-- A world for worked examples: the file `hashes.txt` holds `content`, every URL is
accepted, and the server answers every request with `res`. -/
def exampleWorld (content : GoString) (res : Response) : World where
  readFile := fun name =>
    if name = go "hashes.txt" then .ok content else .error (go "no such file or directory")
  newRequest := fun _ => none
  roundTrip := fun _ => .ok res

/-- A response that is not JSON: the text `ok`. -/
def okResponse : Response := ⟨go "ok", none⟩

/-- The search response with one match: algorithm `md5`, hash `abc`, plaintext `pw1`. -/
def md5Response : Response :=
  ⟨go "\x7b\"found\":[\x7b\"algorithm\":\"md5\",\"hash\":\"abc\",\"plaintext\":\"pw1\"\x7d]\x7d",
    some (.object [(go "found", .array [.object [(go "algorithm", .str (go "md5")),
      (go "hash", .str (go "abc")), (go "plaintext", .str (go "pw1"))]])])⟩

/-- The search response without a match: the member `found` is the string `[]`. -/
def sentinelResponse : Response :=
  ⟨go "\x7b\"found\":\"[]\"\x7d", some (.object [(go "found", .str (go "[]"))])⟩

/-- The line `SearchFounds` prints for a match: `algorithm | hash:plaintext`. -/
def foundLine (row : GoString × GoString × GoString) : GoString :=
  row.1 ++ go " | " ++ row.2.1 ++ go ":" ++ row.2.2 ++ go "\n"

/-- The value `c` is a JSON object whose members `algorithm`, `hash` and `plaintext` are the
strings of `row`. -/
def IsFound (c : JSON) (row : GoString × GoString × GoString) : Prop :=
  ∃ m, c = .object m ∧ JSON.lookup m "algorithm" = .str row.1 ∧
    JSON.lookup m "hash" = .str row.2.1 ∧ JSON.lookup m "plaintext" = .str row.2.2

end api

/-! ## `fmt` under the verb `%v` -/

namespace JSON

mutual
/-- What `fmt.Sprintf("%v", v)` gives for an operand `v` of type `interface{}`; nil prints
as `<nil>`, at the top and inside a slice or a map. -/
def fmtV : JSON → GoString
  | null => go "<nil>"
  | bool b => if b then go "true" else go "false"
  | number t => t
  | str s => s
  | array xs => go "[" ++ (go " ").intercalate (fmtElemsV xs) ++ go "]"
  | object ms => go "map[" ++ (go " ").intercalate
      (((fmtMembersV ms).foldr insertByKey []).map (fun kv => kv.1 ++ go ":" ++ kv.2)) ++ go "]"
/-- The elements of a slice under `%v`. -/
def fmtElemsV : List JSON → List GoString
  | [] => []
  | x :: xs => fmtV x :: fmtElemsV xs
/-- The members of a map under `%v`. -/
def fmtMembersV : List (GoString × JSON) → List (GoString × GoString)
  | [] => []
  | (k, v) :: ms => (k, fmtV v) :: fmtMembersV ms
end

end JSON

/-! ## `internal/api/api.go`: authentication and the list uploads -/

namespace api

open models

/-- The UserCredentials struct is used for authentication. -/
structure UserCredentials where
  Username : GoString
  Password : GoString

/-- The document `json.Marshal` writes for a `UserCredentials`. -/
def marshalUserCredentials (v : UserCredentials) : JSON :=
  .object [(go "username", .str (utf8.coerce v.Username)),
    (go "password", .str (utf8.coerce v.Password))]

/-- The request `ServerAuthenticate` builds: a POST of the credentials to `/login`, with the
content type and no Authorization header. -/
def loginRequest (url username password : GoString) : Request :=
  ⟨go "POST", url ++ go "/login", [(go "Content-Type", go "application/json")],
    some (.json (marshalUserCredentials ⟨username, password⟩))⟩

/-- The call `json.Unmarshal(resBody, &body)` with `body` a nil `map[string]interface{}`: the
map left in `body`, and the error.  A JSON object fills the map; the document `null` leaves
the nil map without error; any other text is an error, whose message `decodeErr` gives. -/
def unmarshalBody (decodeErr : GoString → GoString) (res : Response) :
    List (GoString × JSON) × error :=
  match res.doc with
  | some (.object m) => (m, none)
  | some .null => ([], none)
  | _ => ([], some (decodeErr res.text))

/-- ServerAuthenticate sends a POST request to the /api/login route of the specified URL with
the credentials; it returns the JWT as a string and any error that occurred. -/
def ServerAuthenticate (w : World) (decodeErr : GoString → GoString)
    (url username password : GoString) : Sent (GoString × error) :=
  let req := loginRequest url username password
  match w.newRequest (url ++ go "/login") with
  | some err => ⟨[], ([], some err)⟩
  | none =>
    match w.roundTrip req with
    | .error err => ⟨[req], ([], some err)⟩
    | .ok res =>
      match unmarshalBody decodeErr res with
      | (_, some err) => ⟨[req], ([], some err)⟩
      | (body, none) =>
        match JSON.lookup body "error" with
        | .null => ⟨[req], (JSON.fmtV (JSON.lookup body "token"), none)⟩
        | _ => ⟨[req], ([], some (go "username or password is incorrect"))⟩

/-- CreateNewPrivateList sends a POST request to the /api/lists route of the specified URL
with the content of the file. -/
def CreateNewPrivateList (w : World) (url jwt infile filename : GoString) : Run :=
  match w.readFile infile with
  | .error err => ⟨[], [], .ret (some err)⟩
  | .ok fileContent =>
    let post := PostRequest w url (go "/lists?name=" ++ filename) (.raw fileContent) jwt
    match post.ret with
    | .error err => ⟨post.sent, [], .ret (some err)⟩
    | .ok res => ⟨post.sent, res.text ++ go "\n", .ret none⟩

/-- UpdateTargetPrivateList sends a POST request to the /api/lists/LISTNAME route of the
specified URL with the content of the file. -/
def UpdateTargetPrivateList (w : World) (url jwt listname infile : GoString) : Run :=
  match w.readFile infile with
  | .error err => ⟨[], [], .ret (some err)⟩
  | .ok fileContent =>
    let post := PostRequest w url (go "/lists/" ++ listname) (.raw fileContent) jwt
    match post.ret with
    | .error err => ⟨post.sent, [], .ret (some err)⟩
    | .ok res => ⟨post.sent, res.text ++ go "\n", .ret none⟩

/-- A login response that is the empty JSON object. -/
def emptyObjectResponse : Response := ⟨go "\x7b\x7d", some (.object [])⟩

/-- A login response that reports an error and also carries a token. -/
def errorResponse (message : String) : Response :=
  ⟨go "\x7b\"error\":\"" ++ go message ++ go "\",\"token\":\"t\"\x7d",
    some (.object [(go "error", .str (go message)), (go "token", .str (go "t"))])⟩

/-- A login response with the token `abc`. -/
def tokenResponse : Response :=
  ⟨go "\x7b\"token\":\"abc\"\x7d", some (.object [(go "token", .str (go "abc"))])⟩

end api

/-! ## `main.go`: the function `main` -/

namespace main

open models config api

/-- The function `printUsage`: the text it writes to standard output. -/
def printUsage (configFile : Configuration) : GoString :=
  List.flatten [
    PrintColor (go "[+] OHA Client Configuration Settings:") (go "yellow") 0 ++ go "\n",
    PrintColor (go "OHA User: " ++ configFile.ClientUsername) (go "green") 0 ++ go "\n",
    PrintColor (go "OHA Server URL: " ++ configFile.ServerURL ++ go ":" ++ configFile.ServerPort) (go "green") 0 ++ go "\n",
    PrintColor (go "OHA Server API URL: " ++ configFile.ServerURL ++ go ":" ++ configFile.ServerPort ++ configFile.ServerAPIRoute) (go "green") 0 ++ go "\n",
    PrintColor (go "[+] Available Commands:") (go "yellow") 0 ++ go "\n",
    PrintColor (go "register:") (go "cyan") 0 ++ go " Attempts user registration on the OHA Server." ++ go "\n",
    PrintColor (go "manage:") (go "cyan") 0 ++ go " Changes user permissions for target user." ++ go "\n",
    PrintColor (go "search:") (go "cyan") 0 ++ go " Searches the OHA Server for any matching HASH values in a file." ++ go "\n",
    PrintColor (go "submit:") (go "cyan") 0 ++ go " Submit a file containing HASH:PLAIN values to the OHA Server." ++ go "\n",
    PrintColor (go "health:") (go "cyan") 0 ++ go " Requests the OHA Server settings then prints them." ++ go "\n",
    PrintColor (go "status:") (go "cyan") 0 ++ go " Check the status of downloadable files on the OHA Server." ++ go "\n",
    PrintColor (go "wordlist:") (go "cyan") 0 ++ go " Downloads portions of the wordlist file from the OHA Server." ++ go "\n",
    PrintColor (go "rules:") (go "cyan") 0 ++ go " Downloads portions of the rules file from the OHA Server." ++ go "\n",
    PrintColor (go "masks:") (go "cyan") 0 ++ go " Downloads portions of the masks file from the OHA Server." ++ go "\n",
    PrintColor (go "lists:") (go "cyan") 0 ++ go " View or downloads the available lists on the OHA Server." ++ go "\n",
    PrintColor (go "create:") (go "cyan") 0 ++ go " Create a new private list on the OHA Server." ++ go "\n",
    PrintColor (go "update:") (go "cyan") 0 ++ go " Updates the target list on the OHA Server." ++ go "\n",
    PrintColor (go "[+] Example Commands:") (go "yellow") 0 ++ go "\n",
    PrintColor (go "register:") (go "cyan") 0 ++ go " ohaclient register" ++ go "\n",
    PrintColor (go "manage:") (go "cyan") 0 ++ go " ohaclient manage UID" ++ go "\n",
    PrintColor (go "search:") (go "cyan") 0 ++ go " ohaclient search FILE" ++ go "\n",
    PrintColor (go "submit:") (go "cyan") 0 ++ go " ohaclient found ALGO FILE" ++ go "\n",
    PrintColor (go "health:") (go "cyan") 0 ++ go " ohaclient health" ++ go "\n",
    PrintColor (go "status:") (go "cyan") 0 ++ go " ohaclient status" ++ go "\n",
    PrintColor (go "wordlist:") (go "cyan") 0 ++ go " ohaclient wordlist NUM [QUERY-STRING]" ++ go "\n",
    PrintColor (go "rules:") (go "cyan") 0 ++ go " ohaclient rules NUM [QUERY-STRING]" ++ go "\n",
    PrintColor (go "masks:") (go "cyan") 0 ++ go " ohaclient masks NUM [QUERY-STRING]" ++ go "\n",
    PrintColor (go "lists:") (go "cyan") 0 ++ go " ohaclient lists or ohaclient lists LISTNAME" ++ go "\n",
    PrintColor (go "create:") (go "cyan") 0 ++ go " ohaclient create LISTNAME FILE" ++ go "\n",
    PrintColor (go "update:") (go "cyan") 0 ++ go " ohaclient update LISTNAME FILE" ++ go "\n"]

/-- How a run of `main` ends: it returns, it calls `os.Exit`, or it panics. -/
inductive Ending where
  | returned
  | exited (status : Nat)
  | panicked
deriving DecidableEq, Repr

/-- A run of `main`: the requests handed to the HTTP client, the text written to standard
output, and how the run ends. -/
structure Process where
  sent : List Request
  stdout : GoString
  ending : Ending

/-- The call `config.CheckError(err)` in the middle of a run that has sent `sent` and printed
`out`: on an error the process ends here, otherwise it goes on with `next`. -/
def checked (sent : List Request) (out : GoString) (err : error) (next : Process) : Process :=
  match (CheckError err).ret with
  | some status => ⟨sent, out ++ (CheckError err).stdout, .exited status⟩
  | none => next

/-- A call of a validator followed by `config.CheckError(err)`. -/
def validated (sent : List Request) (out : GoString) (v : Outcome (GoString × error))
    (next : GoString → Process) : Process :=
  match v with
  | .panicked => ⟨sent, out, .panicked⟩
  | .ret (value, err) => checked sent out err (next value)

/-- The end of a command: the handler has run, then `config.CheckError(err)`. -/
def handled (sent : List Request) (run : Run) : Process :=
  match run.result with
  | .panicked => ⟨sent ++ run.sent, run.stdout, .panicked⟩
  | .ret err => checked (sent ++ run.sent) run.stdout err ⟨sent ++ run.sent, run.stdout, .returned⟩

/-- The case `create` of the switch in `main`. -/
def caseCreate (w : World) (decodeErr : GoString → GoString) (OHAServerURL : GoString)
    (configFile : Configuration) (osArgs : List GoString) : Process :=
  let auth := ServerAuthenticate w decodeErr OHAServerURL configFile.ClientUsername
    configFile.ClientPassword
  let jwt := auth.ret.1
  checked auth.sent [] auth.ret.2 <|
    if osArgs.length ≤ 2 then
      ⟨auth.sent, printUsage configFile, .exited 0⟩
    else
      validated auth.sent [] (ValidateQueryStringArgs osArgs 2) fun filename =>
        validated auth.sent [] (ValidateQueryStringArgs osArgs 3) fun newfile =>
          handled auth.sent (CreateNewPrivateList w OHAServerURL jwt newfile filename)

/-- The case `update` of the switch in `main`. -/
def caseUpdate (w : World) (decodeErr : GoString → GoString) (OHAServerURL : GoString)
    (configFile : Configuration) (osArgs : List GoString) : Process :=
  let auth := ServerAuthenticate w decodeErr OHAServerURL configFile.ClientUsername
    configFile.ClientPassword
  let jwt := auth.ret.1
  checked auth.sent [] auth.ret.2 <|
    if osArgs.length ≤ 2 then
      ⟨auth.sent, printUsage configFile, .exited 0⟩
    else
      validated auth.sent [] (ValidateQueryStringArgs osArgs 2) fun filename =>
        validated auth.sent [] (ValidateQueryStringArgs osArgs 3) fun listname =>
          handled auth.sent (UpdateTargetPrivateList w OHAServerURL jwt filename listname)

/-- The commands of `main` whose cases are not part of this development. -/
def otherCommands : List GoString :=
  [go "register", go "manage", go "search", go "submit", go "health", go "status",
    go "wordlist", go "rules", go "masks", go "lists"]

set_option linter.dupNamespace false in
/-- The function `main`, after `init` has set `OHAServerURL` and `configFile`: the run for
the command line `osArgs`, and `none` for one of the `otherCommands`. -/
def main (w : World) (decodeErr : GoString → GoString) (OHAServerURL : GoString)
    (configFile : Configuration) (osArgs : List GoString) : Option Process :=
  if osArgs.length ≤ 1 then
    some ⟨[], printUsage configFile, .exited 0⟩
  else
    match at? osArgs 1 with
    | none => some ⟨[], [], .panicked⟩
    | some command =>
      if command = go "create" then
        some (caseCreate w decodeErr OHAServerURL configFile osArgs)
      else if command = go "update" then
        some (caseUpdate w decodeErr OHAServerURL configFile osArgs)
      else if command ∈ otherCommands then
        none
      else
        some ⟨[], printUsage configFile, .exited 0⟩

end main

/-! ## URLs (`net/url`) -/

namespace neturl

/-- The function `strings.Cut` for a separator of one byte: the text before the first
separator, and the text after it when there is one. -/
def Cut (sep : UInt8) : GoString → GoString × Option GoString
  | [] => ([], none)
  | b :: t => if b = sep then ([], some t) else (b :: (Cut sep t).1, (Cut sep t).2)

/-- The function `strings.CutPrefix`: the text after the head `pre`, when it begins so. -/
def CutPrefix : GoString → GoString → Option GoString
  | s, [] => some s
  | [], _ :: _ => none
  | b :: s, c :: pre => if b = c then CutPrefix s pre else none

/-- The value of a hexadecimal digit (`ishex` and `unhex`). -/
def unhex (c : UInt8) : Option Nat :=
  if 48 ≤ c.toNat ∧ c.toNat ≤ 57 then some (c.toNat - 48)
  else if 97 ≤ c.toNat ∧ c.toNat ≤ 102 then some (c.toNat - 97 + 10)
  else if 65 ≤ c.toNat ∧ c.toNat ≤ 70 then some (c.toNat - 65 + 10)
  else none

/-- The function `unescape` in the modes of a path and of a fragment: each `%XX` becomes
the byte it names; a `%` that is not followed by two hexadecimal digits is an error. -/
def unescape : GoString → Option GoString
  | [] => some []
  | b :: rest =>
    if b = 37 then
      match rest with
      | h :: l :: rest2 =>
        match unhex h, unhex l with
        | some x, some y => (unescape rest2).map (fun t => UInt8.ofNat (x * 16 + y) :: t)
        | _, _ => none
      | _ => none
    else
      (unescape rest).map (fun t => b :: t)

/-- The function `shouldEscape` in the mode of a path: letters, digits, `-_.~` and the
reserved characters `$&+,/:;=@` are left alone, everything else is escaped. -/
def shouldEscape (c : UInt8) : Bool :=
  if c ∈ models.alphanumerics then false
  else if c ∈ go "-_.~" then false
  else if c ∈ go "$&+,/:;=?@" then c = 63
  else true

/-- The upper-case hexadecimal digit of a value below 16. -/
def upperhex (n : Nat) : UInt8 := (go "0123456789ABCDEF").getD n 48

/-- The function `escape` in the mode of a path. -/
def escape (s : GoString) : GoString :=
  s.flatMap (fun c =>
    if shouldEscape c then [37, upperhex (c.toNat / 16), upperhex (c.toNat % 16)] else [c])

/-- The function `validEncoded` in the mode of a path: the sub-delimiters, `:`, `@`, the
brackets and `%` are accepted, any other byte when `shouldEscape` leaves it alone. -/
def validEncoded (s : GoString) : Bool :=
  s.all (fun c => c ∈ go "!$&()*+,;=:@[]%" || c.toNat = 39 || !shouldEscape c)

/-- The parts of a `url.URL` that decide the request: the authority (user information and
host, as in the text), the decoded path with its hint `RawPath`, the query and the
fragment. -/
structure URL where
  Authority : GoString
  Path : GoString
  RawPath : GoString
  ForceQuery : Bool
  RawQuery : GoString
  Fragment : GoString
deriving DecidableEq, Repr

/-- The function `url.Parse` on the URLs of this program, which all begin with `https://`:
the fragment is cut off at the first `#`, the query at the first `?`, the authority ends
at the next `/`, and the rest is the path.  The result is `none` when the text has a
control byte or a bad percent escape (errors of `url.Parse`) and when it does not begin
with `https://`; the errors that `url.Parse` finds in the authority are left to the oracle
`World.newRequest`. -/
def Parse (rawURL : GoString) : Option URL :=
  let u := (Cut 35 rawURL).1
  let frag := ((Cut 35 rawURL).2).getD []
  if u.any (fun b => b.toNat < 32 || b.toNat = 127) then none
  else
    match CutPrefix u (go "https:") with
    | none => none
    | some rest =>
      let forceQuery : Bool := rest.getLast? = some 63 && rest.count 63 = 1
      let rest1 := if forceQuery then rest.dropLast else (Cut 63 rest).1
      let rawQuery := if forceQuery then [] else ((Cut 63 rest).2).getD []
      match CutPrefix rest1 (go "//") with
      | none => none
      | some afterSlashes =>
        let authority := afterSlashes.takeWhile (fun b => b != 47)
        let p := afterSlashes.dropWhile (fun b => b != 47)
        match unescape p, unescape frag with
        | some path, some fragment =>
          some ⟨authority, path, if escape path = p then [] else p, forceQuery, rawQuery,
            fragment⟩
        | _, _ => none

/-- The method `(*URL).EscapedPath`. -/
def URL.EscapedPath (u : URL) : GoString :=
  if u.RawPath ≠ [] ∧ validEncoded u.RawPath = true ∧ unescape u.RawPath = some u.Path then
    u.RawPath
  else if u.Path = go "*" then go "*"
  else escape u.Path

/-- The method `(*URL).RequestURI` of a URL with a host: the escaped path, `/` when it is
empty, and the query after a `?`.  It is the target in the request line that the HTTP
client writes; the fragment is not sent. -/
def URL.RequestURI (u : URL) : GoString :=
  let result := if u.EscapedPath = [] then go "/" else u.EscapedPath
  if u.ForceQuery || u.RawQuery ≠ [] then result ++ go "?" ++ u.RawQuery else result

/-- The bytes that `url.Parse` takes as they are outside the authority: no control byte,
no `#` and no `?`. -/
def Plain (s : GoString) : Prop :=
  ∀ b ∈ s, b ≠ 63 ∧ b ≠ 35 ∧ ¬ (b.toNat < 32) ∧ b.toNat ≠ 127

/-- The characters of an authority `host:port` that needs no escaping. -/
def hostChars : GoString := models.alphanumerics ++ go ".-:"

/-- The characters of a path that `net/url` writes as they are: letters, digits and
`/ - _ . ~`. -/
def pathChars : GoString := models.alphanumerics ++ go "-_.~/"

end neturl

/-! ## Theorems -/

namespace Regex

theorem flatMap_eol_isEmpty (l : List Pos) :
    (l.flatMap (fun x => run eol x.1 x.2)).isEmpty = !l.any (fun x => x.2.isEmpty) := by
  induction l with
  | nil => rfl
  | cons p l ih =>
    rcases p with ⟨st, s⟩
    cases s with
    | nil => simp [run]
    | cons b t => simpa [run] using ih

theorem run_seq_eol (x : Regex) (st : Bool) (s : GoString) :
    (run (seq x eol) st s).isEmpty = !(run x st s).any (fun p => p.2.isEmpty) := by
  simp only [run]
  exact flatMap_eol_isEmpty _

theorem search_bol_false (x : Regex) (t : GoString) : search (seq bol x) false t = false := by
  induction t with
  | nil => simp [search, run]
  | cons b t ih => simp [search, run, ih]

theorem matchString_bol (x : Regex) (s : GoString) :
    MatchString (seq bol x) s = !(run x true s).isEmpty := by
  cases s with
  | nil => simp [MatchString, search, run]
  | cons b t => simp [MatchString, search, run, search_bol_false]

theorem run_cls_cons (rs : List (UInt8 × UInt8)) (st : Bool) (b : UInt8) (t : GoString) :
    run (cls rs) st (b :: t) = if inClass rs b then [(false, t)] else [] := rfl

theorem run_cls_nil (rs : List (UInt8 × UInt8)) (st : Bool) : run (cls rs) st [] = [] := rfl

theorem iter_cls_eol (rs : List (UInt8 × UInt8)) :
    ∀ (s : GoString) (n : Nat) (st : Bool), s.length ≤ n →
      (iter (run (cls rs)) n st s).any (fun x => x.2.isEmpty) = s.all (inClass rs) := by
  intro s
  induction s with
  | nil =>
    intro n st _
    cases n <;> simp [iter, run_cls_nil]
  | cons b t ih =>
    intro n st hn
    cases n with
    | zero => simp at hn
    | succ m =>
      have hm : t.length ≤ m := by simpa using hn
      by_cases hb : inClass rs b = true
      · simp [iter, run_cls_cons, hb, ih m false hm]
      · simp [iter, run_cls_cons, hb]

/-- A text matches `^[class]*$` exactly when all its bytes are in the class. -/
theorem matchString_star_cls (rs : List (UInt8 × UInt8)) (s : GoString) :
    MatchString (cat [bol, star (cls rs), eol]) s = s.all (inClass rs) := by
  have h : cat [bol, star (cls rs), eol] = seq bol (seq (star (cls rs)) eol) := rfl
  rw [h, matchString_bol, run_seq_eol, Bool.not_not]
  exact iter_cls_eol rs s s.length true (Nat.le_refl _)

/-- A text matches `^[class]+$` exactly when it is not empty and all its bytes are in
the class. -/
theorem matchString_plus_cls (rs : List (UInt8 × UInt8)) (s : GoString) :
    MatchString (cat [bol, plus (cls rs), eol]) s = (!s.isEmpty && s.all (inClass rs)) := by
  have h : cat [bol, plus (cls rs), eol] = seq bol (seq (plus (cls rs)) eol) := rfl
  rw [h, matchString_bol, run_seq_eol, Bool.not_not]
  cases s with
  | nil => simp [run]
  | cons b t =>
    have hrun : run (plus (cls rs)) true (b :: t) =
        (run (cls rs) true (b :: t)).flatMap
          (fun x => iter (run (cls rs)) x.2.length x.1 x.2) := rfl
    rw [hrun, run_cls_cons]
    by_cases hb : inClass rs b = true
    · simp [hb, iter_cls_eol rs t t.length false (Nat.le_refl _)]
    · simp [hb]

/-- A bracket class given by ranges accepts exactly the bytes of an explicit alphabet, once
`sameBytes` has checked the two against each other. -/
theorem inClass_iff_mem (rs : List (UInt8 × UInt8)) (alphabet : GoString)
    (h : sameBytes rs alphabet = true) (b : UInt8) : inClass rs b = true ↔ b ∈ alphabet := by
  have hb : UInt8.ofNat b.toNat = b := by
    cases b with
    | mk v =>
      apply UInt8.ext
      simp [UInt8.ofNat, UInt8.toNat, Fin.ofNat, Nat.mod_eq_of_lt v.isLt]
  simp only [sameBytes, Bool.and_eq_true, List.all_eq_true] at h
  constructor
  · intro hin
    simp only [inClass, List.any_eq_true, Bool.and_eq_true, decide_eq_true_eq] at hin
    obtain ⟨r, hr, hlo, hhi⟩ := hin
    have := h.2 r hr b.toNat
      (by rw [List.mem_range']; exact ⟨b.toNat - r.1.toNat, by omega, by omega⟩)
    rw [hb] at this
    simpa using this
  · intro hmem
    exact h.1 b hmem

end Regex

namespace models

open Regex

set_option maxRecDepth 100000 in
theorem inClass_digits (b : UInt8) : inClass [range '0' '9'] b = true ↔ b ∈ digits :=
  inClass_iff_mem _ _ (by decide) b

theorem IsStringInt_iff (s : GoString) :
    IsStringInt s = true ↔ s ≠ [] ∧ ∀ b ∈ s, b ∈ digits := by
  unfold IsStringInt reInt
  rw [matchString_plus_cls]
  cases s with
  | nil => simp
  | cons b t => simp [inClass_digits]

theorem at?_of_lt (args : List GoString) (index : Int) (h0 : 0 ≤ index)
    (hlt : index < args.length) : ∃ a, at? args index = some a := by
  have h : index.toNat < args.length := by omega
  exact ⟨args[index.toNat], by simp [at?, h0, List.getElem?_eq_getElem h]⟩

/-- C1: `IsStringInt s` is true exactly when `s` is non-empty and each of its characters
is an ASCII digit; and for an index inside `args`, `ValidateIntInputArgs` returns
`(args[index], nil)` exactly when `IsStringInt (args[index])` is true, and an empty string
with an error otherwise. -/
theorem ValidateIntInputArgs_accepts_iff (s : GoString) (args : List GoString) (index : Int)
    (h0 : 0 ≤ index) (hlt : index < args.length) :
    (IsStringInt s = true ↔ s ≠ [] ∧ ∀ b ∈ s, b ∈ digits) ∧
    ∃ a, at? args index = some a ∧
      (ValidateIntInputArgs args index = .ret (a, none) ↔ IsStringInt a = true) ∧
      (IsStringInt a = false →
        ∃ msg, ValidateIntInputArgs args index = .ret ([], some msg)) := by
  refine ⟨IsStringInt_iff s, ?_⟩
  obtain ⟨a, ha⟩ := at?_of_lt args index h0 hlt
  have hlen : ¬ ((args.length : Int) < index) := by omega
  refine ⟨a, ha, ?_, ?_⟩
  · cases hv : IsStringInt a <;> simp [ValidateIntInputArgs, hlen, ha, hv]
  · intro hv
    exact ⟨go "Invalid Number Input: " ++ a, by simp [ValidateIntInputArgs, hlen, ha, hv]⟩

/-- The instance `manage 42` of C1, with the spec's examples: `42` is accepted, `4a` and the
empty string are rejected. -/
theorem ValidateIntInputArgs_accepts_iff_witness :
    ((0 : Int) ≤ 2 ∧ (2 : Int) < [go "ohaclient", go "manage", go "42"].length) ∧
    ((IsStringInt (go "42") = true ↔ go "42" ≠ [] ∧ ∀ b ∈ go "42", b ∈ digits) ∧
      ∃ a, at? [go "ohaclient", go "manage", go "42"] 2 = some a ∧
        (ValidateIntInputArgs [go "ohaclient", go "manage", go "42"] 2 = .ret (a, none) ↔
          IsStringInt a = true) ∧
        (IsStringInt a = false →
          ∃ msg, ValidateIntInputArgs [go "ohaclient", go "manage", go "42"] 2 =
            .ret ([], some msg))) ∧
    ValidateIntInputArgs [go "ohaclient", go "manage", go "42"] 2 = .ret (go "42", none) ∧
    ValidateIntInputArgs [go "ohaclient", go "manage", go "4a"] 2 =
      .ret ([], some (go "Invalid Number Input: 4a")) ∧
    ValidateIntInputArgs [go "ohaclient", go "manage", go ""] 2 =
      .ret ([], some (go "Invalid Number Input: ")) :=
  ⟨⟨by decide, by decide⟩,
    ValidateIntInputArgs_accepts_iff (go "42") [go "ohaclient", go "manage", go "42"] 2
      (by decide) (by decide),
    by decide, by decide, by decide⟩

set_option maxRecDepth 100000 in
theorem inClass_fileNameChars (b : UInt8) :
    inClass [range 'a' 'z', range 'A' 'Z', range '0' '9', one '_', one '.', one '-', one '/'] b
      = true ↔ b ∈ fileNameChars :=
  inClass_iff_mem _ _ (by decide) b

set_option maxRecDepth 100000 in
theorem inClass_queryChars (b : UInt8) :
    inClass [range 'a' 'z', range 'A' 'Z', range '0' '9',
      one '!', one '@', one '#', one '$', one '%', one '^', one '&', one '*',
      one '(', one ')', one '_', one '+', one '=', one '.', one '-'] b
      = true ↔ b ∈ queryChars :=
  inClass_iff_mem _ _ (by decide) b

theorem IsStringValidFileName_iff (s : GoString) :
    IsStringValidFileName s = true ↔ s ≠ [] ∧ ∀ b ∈ s, b ∈ fileNameChars := by
  unfold IsStringValidFileName reFileName
  rw [matchString_plus_cls]
  cases s with
  | nil => simp
  | cons b t => simp [inClass_fileNameChars]

theorem matchString_reQuery (s : GoString) :
    MatchString reQuery s = true ↔ ∀ b ∈ s, b ∈ queryChars := by
  unfold reQuery
  rw [matchString_star_cls]
  simp [inClass_queryChars]

/-- C2: for an index inside `args`, a name that is empty or has a character outside
letters, digits, `_`, `.`, `-`, `/` makes `ValidateFileInputArgs` return an error whatever
the file system says (also when the file exists); and it returns `(args[index], nil)` exactly
when the file exists and the name is non-empty with all characters in that set. -/
theorem ValidateFileInputArgs_accepts_iff (stat : GoString → error) (args : List GoString)
    (index : Int) (h0 : 0 ≤ index) (hlt : index < args.length) :
    ∃ a, at? args index = some a ∧
      ((a = [] ∨ ∃ b ∈ a, b ∉ fileNameChars) →
        ∃ msg, ValidateFileInputArgs stat args index = .ret ([], some msg)) ∧
      (ValidateFileInputArgs stat args index = .ret (a, none) ↔
        stat a = none ∧ a ≠ [] ∧ ∀ b ∈ a, b ∈ fileNameChars) := by
  obtain ⟨a, ha⟩ := at?_of_lt args index h0 hlt
  have hlen : ¬ ((args.length : Int) < index) := by omega
  refine ⟨a, ha, ?_, ?_⟩
  · intro hbad
    have hv : IsStringValidFileName a = false := by
      cases h : IsStringValidFileName a
      · rfl
      · rw [IsStringValidFileName_iff] at h
        rcases hbad with hnil | ⟨b, hb, hnot⟩
        · exact absurd hnil h.1
        · exact absurd (h.2 b hb) hnot
    cases hs : stat a with
    | some err => exact ⟨err, by simp [ValidateFileInputArgs, hlen, ha, hs]⟩
    | none =>
      exact ⟨go "Filename contained invalid characters",
        by simp [ValidateFileInputArgs, hlen, ha, hs, hv]⟩
  · rw [← IsStringValidFileName_iff]
    cases hs : stat a with
    | some err => simp [ValidateFileInputArgs, hlen, ha, hs]
    | none =>
      cases hv : IsStringValidFileName a <;> simp [ValidateFileInputArgs, hlen, ha, hs, hv]

/-- The instance `search list.txt` of C2 on a file system where every name exists, with the
spec's example: the existing file `list one.txt` is rejected because of the space. -/
theorem ValidateFileInputArgs_accepts_iff_witness :
    ((0 : Int) ≤ 2 ∧ (2 : Int) < [go "ohaclient", go "search", go "list.txt"].length) ∧
    (∃ a, at? [go "ohaclient", go "search", go "list.txt"] 2 = some a ∧
      ((a = [] ∨ ∃ b ∈ a, b ∉ fileNameChars) →
        ∃ msg, ValidateFileInputArgs (fun _ => none)
          [go "ohaclient", go "search", go "list.txt"] 2 = .ret ([], some msg)) ∧
      (ValidateFileInputArgs (fun _ => none) [go "ohaclient", go "search", go "list.txt"] 2
          = .ret (a, none) ↔
        (fun _ => none : GoString → error) a = none ∧ a ≠ [] ∧ ∀ b ∈ a, b ∈ fileNameChars)) ∧
    ValidateFileInputArgs (fun _ => none) [go "ohaclient", go "search", go "list.txt"] 2
      = .ret (go "list.txt", none) ∧
    ValidateFileInputArgs (fun _ => none) [go "ohaclient", go "search", go "list one.txt"] 2
      = .ret ([], some (go "Filename contained invalid characters")) :=
  ⟨⟨by decide, by decide⟩,
    ValidateFileInputArgs_accepts_iff (fun _ => none)
      [go "ohaclient", go "search", go "list.txt"] 2 (by decide) (by decide),
    by decide, by decide⟩

/-- C3: for an index `≥ 0`, `ValidateQueryStringArgs` returns `("", nil)` when `args` has no
element at the index; when it has one, it returns that element unchanged with no error if
all its characters are letters, digits or one of `!@#$%^&*()_+=.-` (the empty string
included), and an error if some character is outside that set. -/
theorem ValidateQueryStringArgs_optional (args : List GoString) (index : Int)
    (h0 : 0 ≤ index) :
    ((args.length : Int) ≤ index → ValidateQueryStringArgs args index = .ret ([], none)) ∧
    ∀ a, at? args index = some a →
      ((∀ b ∈ a, b ∈ queryChars) → ValidateQueryStringArgs args index = .ret (a, none)) ∧
      ((∃ b ∈ a, b ∉ queryChars) →
        ∃ msg, ValidateQueryStringArgs args index = .ret ([], some msg)) := by
  constructor
  · intro h
    have : (args.length : Int) - 1 < index := by omega
    simp [ValidateQueryStringArgs, this]
  · intro a ha
    have hlt : index.toNat < args.length := by
      unfold at? at ha
      rw [if_pos h0] at ha
      by_contra hge
      rw [List.getElem?_eq_none (by omega)] at ha
      cases ha
    have hlen : ¬ ((args.length : Int) - 1 < index) := by omega
    constructor
    · intro hall
      have hm : MatchString reQuery a = true := (matchString_reQuery a).2 hall
      simp [ValidateQueryStringArgs, hlen, ha, hm]
    · rintro ⟨b, hb, hnot⟩
      have hm : MatchString reQuery a = false := by
        cases h : MatchString reQuery a
        · rfl
        · exact absurd ((matchString_reQuery a).1 h b hb) hnot
      exact ⟨go "Query string contains invalid characters",
        by simp [ValidateQueryStringArgs, hlen, ha, hm]⟩

/-- Instances of C3 for `wordlist 1 a=b`: the query at index 3 is returned unchanged, an
absent or empty query gives the empty string without error, a query with a space is an
error. -/
theorem ValidateQueryStringArgs_optional_witness :
    (0 : Int) ≤ 3 ∧
    (((([go "ohaclient", go "wordlist", go "1", go "a=b"].length : Nat) : Int) ≤ 3 →
        ValidateQueryStringArgs [go "ohaclient", go "wordlist", go "1", go "a=b"] 3
          = .ret ([], none)) ∧
      ∀ a, at? [go "ohaclient", go "wordlist", go "1", go "a=b"] 3 = some a →
        ((∀ b ∈ a, b ∈ queryChars) →
          ValidateQueryStringArgs [go "ohaclient", go "wordlist", go "1", go "a=b"] 3
            = .ret (a, none)) ∧
        ((∃ b ∈ a, b ∉ queryChars) →
          ∃ msg, ValidateQueryStringArgs [go "ohaclient", go "wordlist", go "1", go "a=b"] 3
            = .ret ([], some msg))) ∧
    ValidateQueryStringArgs [go "ohaclient", go "wordlist", go "1", go "a=b"] 3
      = .ret (go "a=b", none) ∧
    ValidateQueryStringArgs [go "ohaclient", go "wordlist", go "1"] 3 = .ret ([], none) ∧
    ValidateQueryStringArgs [go "ohaclient", go "wordlist", go "1", go ""] 3
      = .ret ([], none) ∧
    ValidateQueryStringArgs [go "ohaclient", go "wordlist", go "1", go "a b"] 3
      = .ret ([], some (go "Query string contains invalid characters")) :=
  ⟨by decide,
    ValidateQueryStringArgs_optional [go "ohaclient", go "wordlist", go "1", go "a=b"] 3
      (by decide),
    by decide, by decide, by decide, by decide⟩

/-- C4, as amended: a configuration whose password is shorter than 12 bytes (the length
that `len` measures, the UTF-8 encoding of the password; for a password of ASCII characters
it is the number of characters) is rejected by `ValidateConfig`, whatever its other fields;
and the password is checked for its length only: if a configuration is accepted, it stays
accepted with any other password of at least 12 bytes in place of its own. -/
theorem ValidateConfig_password_length_only (c : Configuration) (p : GoString) :
    (c.ClientPassword.length < 12 → (ValidateConfig c).ret ≠ none) ∧
    ((ValidateConfig c).ret = none → 12 ≤ p.length →
      (ValidateConfig { c with ClientPassword := p }).ret = none) := by
  constructor
  · intro h
    unfold ValidateConfig
    split_ifs <;> simp
  · intro hc hp
    have hp12 : ¬ (p.length < 12) := by omega
    unfold ValidateConfig at hc ⊢
    simp only [serverURL] at hc ⊢
    split_ifs at hc ⊢
    rfl

/-- Instances of C4: a configuration accepted with one password is rejected with the
11 characters `Aa1!Aa1!Aa1` and accepted with twelve times the letter `a`. -/
theorem ValidateConfig_password_length_only_witness :
    ((go "Aa1!Aa1!Aa1").length < 12 ∧
      (ValidateConfig ⟨go "oha.example", go "8080", go "/api", go "admin",
        go "Correct-Horse-1"⟩).ret = none ∧ 12 ≤ (go "aaaaaaaaaaaa").length) ∧
    (ValidateConfig ⟨go "oha.example", go "8080", go "/api", go "admin",
        go "Aa1!Aa1!Aa1"⟩).ret ≠ none ∧
    (ValidateConfig ⟨go "oha.example", go "8080", go "/api", go "admin",
        go "aaaaaaaaaaaa"⟩).ret = none :=
  ⟨⟨by decide, by decide, by decide⟩,
    (ValidateConfig_password_length_only
      ⟨go "oha.example", go "8080", go "/api", go "admin", go "Aa1!Aa1!Aa1"⟩ []).1 (by decide),
    (ValidateConfig_password_length_only
      ⟨go "oha.example", go "8080", go "/api", go "admin", go "Correct-Horse-1"⟩
      (go "aaaaaaaaaaaa")).2 (by decide) (by decide)⟩

/-- C4 as stated fails: the password `éééééé` has 6 characters, fewer than 12, and a
configuration with this password is accepted by `ValidateConfig`, because the 12 bytes of
its UTF-8 encoding pass the check of `len`. -/
theorem ValidateConfig_accepts_six_character_password :
    "éééééé".length = 6 ∧ (go "éééééé").length = 12 ∧
    ValidateConfig ⟨go "oha.example", go "8080", go "/api", go "admin", go "éééééé"⟩
      = ⟨[], none⟩ := by
  decide

/-- C5, at the failing input: the server port `80x` is not numeric, and `ValidateConfig`
returns no error for a configuration with that port. -/
theorem ValidateConfig_accepts_nonnumeric_port :
    (∃ b ∈ go "80x", b ∉ digits) ∧
    ValidateConfig ⟨go "oha.example", go "80x", go "/api", go "admin", go "Correct-Horse-1"⟩
      = ⟨[], none⟩ := by
  decide

/-- C6, at the failing input: the username `a!!` has characters that are not alphanumeric,
and `ValidateConfig` returns no error for a configuration with that username. -/
theorem ValidateConfig_accepts_nonalphanumeric_username :
    (∃ b ∈ go "a!!", b ∉ alphanumerics) ∧
    ValidateConfig ⟨go "oha.example", go "8080", go "/api", go "a!!", go "Correct-Horse-1"⟩
      = ⟨[], none⟩ := by
  decide

end models

namespace main

open models config

/-- C7: when loading the configuration file fails and one of the five variables is unset or
empty, `init` terminates the process with status 1 after printing the load output and the
"Unauthenticated" message only (no validation, `OHAServerURL` not set), whatever the other
four variables hold; and when the file loads, `init` gives the same result under every
environment that names the same file: the five variables are not consulted. -/
theorem init_requires_all_variables (fs : GoString → FileState)
    (unmarshal : GoString → Configuration × error) (env : Environ) :
    ((LoadConfig fs unmarshal (configPath env)).ret.2 ≠ none →
      (∃ v ∈ requiredVars, env (go v) = none ∨ env (go v) = some []) →
      (init fs unmarshal env).exit = some 1 ∧
      (init fs unmarshal env).stdout =
        (LoadConfig fs unmarshal (configPath env)).stdout ++ unauthenticated ∧
      (init fs unmarshal env).OHAServerURL = []) ∧
    ((LoadConfig fs unmarshal (configPath env)).ret.2 = none →
      ∀ env2 : Environ, configPath env2 = configPath env →
        init fs unmarshal env2 = init fs unmarshal env) := by
  constructor
  · intro hload hmiss
    have hany : Getenv env "CLIENT_USERNAME" = [] ∨ Getenv env "SERVER_URL" = [] ∨
        Getenv env "SERVER_PORT" = [] ∨ Getenv env "SERVER_API" = [] ∨
        Getenv env "CLIENT_PASSWORD" = [] := by
      obtain ⟨v, hv, hval⟩ := hmiss
      have hget : Getenv env v = [] := by
        rcases hval with h | h <;> simp [Getenv, h]
      simp only [requiredVars, List.mem_cons, List.mem_singleton, List.not_mem_nil,
        or_false] at hv
      rcases hv with h | h | h | h | h <;> subst h <;> simp [hget]
    cases hl : (LoadConfig fs unmarshal (configPath env)).ret.2 with
    | none => exact absurd hl hload
    | some e =>
      unfold init
      simp only [hl]
      rw [if_pos hany]
      exact ⟨rfl, rfl, rfl⟩
  · intro hload env2 hpath
    unfold init
    simp only [hpath, hload]

/-- Instances of C7.  With no file and `CLIENT_PASSWORD` missing, `init` exits with status 1
although the four other variables are set; with a file that loads, an environment that
sets the five variables gives the same result as one that sets none of them. -/
theorem init_requires_all_variables_witness :
    ((LoadConfig (fun _ => .missing) (fun _ => (⟨[], [], [], [], []⟩, none))
        (configPath (fun k =>
          if k = go "CLIENT_PASSWORD" ∨ k = go "HOME" then none else some (go "x")))).ret.2
        ≠ none ∧
      (∃ v ∈ requiredVars,
        (fun k => if k = go "CLIENT_PASSWORD" ∨ k = go "HOME" then none else some (go "x") :
          Environ) (go v) = none ∨
        (fun k => if k = go "CLIENT_PASSWORD" ∨ k = go "HOME" then none else some (go "x") :
          Environ) (go v) = some [])) ∧
    (init (fun _ => .missing) (fun _ => (⟨[], [], [], [], []⟩, none))
        (fun k => if k = go "CLIENT_PASSWORD" ∨ k = go "HOME" then none
          else some (go "x"))).exit = some 1 ∧
    init (fun _ => .content [])
        (fun _ => (⟨go "oha.example", go "8080", go "/api", go "admin",
          go "Correct-Horse-1"⟩, none))
        (fun k => if k = go "HOME" then none else some (go "x"))
      = init (fun _ => .content [])
        (fun _ => (⟨go "oha.example", go "8080", go "/api", go "admin",
          go "Correct-Horse-1"⟩, none))
        (fun _ => none) :=
  ⟨⟨by decide, ⟨"CLIENT_PASSWORD", by decide, Or.inl (by decide)⟩⟩,
    ((init_requires_all_variables (fun _ => .missing)
      (fun _ => (⟨[], [], [], [], []⟩, none))
      (fun k => if k = go "CLIENT_PASSWORD" ∨ k = go "HOME" then none
        else some (go "x"))).1
      (by decide) ⟨"CLIENT_PASSWORD", by decide, Or.inl (by decide)⟩).1,
    (init_requires_all_variables (fun _ => .content [])
      (fun _ => (⟨go "oha.example", go "8080", go "/api", go "admin",
        go "Correct-Horse-1"⟩, none))
      (fun _ => none)).2 (by decide) _ (by decide)⟩

end main

namespace neturl

theorem Cut_of_not_mem (sep : UInt8) (s : GoString) (h : sep ∉ s) : Cut sep s = (s, none) := by
  induction s with
  | nil => rfl
  | cons b t ih =>
    have hb : b ≠ sep := fun e => h (by simp [e])
    have ht : sep ∉ t := fun e => h (by simp [e])
    simp [Cut, hb, ih ht]

theorem Cut_append (sep : UInt8) (a t : GoString) (h : sep ∉ a) :
    Cut sep (a ++ sep :: t) = (a, some t) := by
  induction a with
  | nil => simp [Cut]
  | cons b a ih =>
    have hb : b ≠ sep := fun e => h (by simp [e])
    have ha : sep ∉ a := fun e => h (by simp [e])
    simp [Cut, hb, ih ha]

theorem CutPrefix_append (pre s : GoString) : CutPrefix (pre ++ s) pre = some s := by
  induction pre with
  | nil => cases s <;> rfl
  | cons c pre ih =>
    have e : CutPrefix ((c :: pre) ++ s) (c :: pre) =
        if c = c then CutPrefix (pre ++ s) pre else none := rfl
    rw [e, if_pos rfl, ih]

theorem unescape_of_not_mem (s : GoString) (h : 37 ∉ s) : unescape s = some s := by
  induction s with
  | nil => rfl
  | cons b t ih =>
    have hb : b ≠ 37 := fun e => h (by simp [e])
    have ht : 37 ∉ t := fun e => h (by simp [e])
    unfold unescape
    rw [if_neg hb, ih ht]
    rfl

theorem takeWhile_authority (a t : GoString) (ha : ∀ b ∈ a, b ≠ 47)
    (ht : t = [] ∨ t.head? = some 47) :
    (a ++ t).takeWhile (fun b => b != 47) = a ∧ (a ++ t).dropWhile (fun b => b != 47) = t := by
  induction a with
  | nil =>
    rcases ht with rfl | ht
    · simp
    · cases t with
      | nil => simp
      | cons c t =>
        have hc : c = 47 := by simpa using ht
        subst hc
        simp [List.takeWhile, List.dropWhile]
  | cons b a ih =>
    have hb : b ≠ 47 := ha b (by simp)
    have := ih (fun x hx => ha x (by simp [hx]))
    have hb2 : (b != 47) = true := by simpa using hb
    rw [List.cons_append, List.takeWhile_cons, List.dropWhile_cons]
    simp only [hb2, if_true]
    exact ⟨by rw [this.1], this.2⟩

theorem EscapedPath_of_valid (a p q f : GoString) (fq : Bool)
    (hv : validEncoded p = true) (hu : unescape p = some p) (hs : 47 ∈ p) :
    (URL.mk a p (if escape p = p then [] else p) fq q f).EscapedPath = p := by
  have hstar : p ≠ go "*" := by
    intro e
    rw [e] at hs
    revert hs
    decide
  have hne : p ≠ [] := by
    intro e
    rw [e] at hs
    simp at hs
  unfold URL.EscapedPath
  by_cases h : escape p = p
  · simp [h, hstar]
  · simp [h, hne, hv, hu]


theorem Plain.append {s t : GoString} (hs : Plain s) (ht : Plain t) : Plain (s ++ t) := by
  intro b hb
  rcases List.mem_append.1 hb with h | h
  · exact hs b h
  · exact ht b h

theorem Plain.any_ctl {s : GoString} (hs : Plain s) :
    s.any (fun b => decide (b.toNat < 32) || decide (b.toNat = 127)) = false := by
  rw [List.any_eq_false]
  intro b hb
  have := hs b hb
  simp [this.2.2.1, this.2.2.2]

theorem Plain.not_mem {s : GoString} (hs : Plain s) : (63 : UInt8) ∉ s ∧ (35 : UInt8) ∉ s :=
  ⟨fun h => (hs 63 h).1 rfl, fun h => (hs 35 h).2.1 rfl⟩

theorem CutPrefix_https (t : GoString) :
    CutPrefix (go "https://" ++ t) (go "https:") = some (go "//" ++ t) := by
  have : go "https://" = go "https:" ++ go "//" := by decide
  rw [this, List.append_assoc]
  exact CutPrefix_append _ _

theorem Parse_path (a p : GoString) (ha : Plain a) (ha2 : ∀ b ∈ a, b ≠ 47) (hp : Plain p)
    (hp0 : p = [] ∨ p.head? = some 47) (hp1 : 37 ∉ p) :
    Parse (go "https://" ++ (a ++ p)) =
      some ⟨a, p, if escape p = p then [] else p, false, [], []⟩ := by
  have hpre : Plain (go "https://") := by unfold Plain; decide
  have hall : Plain (go "https://" ++ (a ++ p)) := hpre.append (ha.append hp)
  have hrest : Plain (go "//" ++ (a ++ p)) :=
    (show Plain (go "//") by unfold Plain; decide).append (ha.append hp)
  have hcut : Cut 35 (go "https://" ++ (a ++ p)) = (go "https://" ++ (a ++ p), none) :=
    Cut_of_not_mem _ _ hall.not_mem.2
  have hq : Cut 63 (go "//" ++ (a ++ p)) = (go "//" ++ (a ++ p), none) :=
    Cut_of_not_mem _ _ hrest.not_mem.1
  have hlast : ¬ ((go "//" ++ (a ++ p)).getLast? = some 63 ∧
      (go "//" ++ (a ++ p)).count 63 = 1) := by
    intro h
    exact hrest.not_mem.1 (List.mem_of_getLast?_eq_some h.1)
  have hlast2 : (decide ((go "//" ++ (a ++ p)).getLast? = some 63) &&
      decide ((go "//" ++ (a ++ p)).count 63 = 1)) = false := by
    simpa using hlast
  have hpfx2 : CutPrefix (go "//" ++ (a ++ p)) (go "//") = some (a ++ p) :=
    CutPrefix_append _ _
  have htw := takeWhile_authority a p ha2 hp0
  unfold Parse
  simp only [hcut, hall.any_ctl, CutPrefix_https, hq, hlast2]
  simp [hpfx2, htw.1, htw.2, unescape_of_not_mem p hp1, unescape]

theorem Parse_query (a p q : GoString) (ha : Plain a) (ha2 : ∀ b ∈ a, b ≠ 47)
    (hp : Plain p) (hp0 : p = [] ∨ p.head? = some 47) (hp1 : 37 ∉ p)
    (hq : Plain q) (hq0 : q ≠ []) :
    Parse (go "https://" ++ (a ++ (p ++ 63 :: q))) =
      some ⟨a, p, if escape p = p then [] else p, false, q, []⟩ := by
  have hpre : Plain (go "https://") := by unfold Plain; decide
  have hfrag : (35 : UInt8) ∉ go "https://" ++ (a ++ (p ++ 63 :: q)) := by
    simp only [List.mem_append, List.mem_cons, not_or]
    exact ⟨hpre.not_mem.2, ha.not_mem.2, hp.not_mem.2, by decide, hq.not_mem.2⟩
  have hcut : Cut 35 (go "https://" ++ (a ++ (p ++ 63 :: q))) =
      (go "https://" ++ (a ++ (p ++ 63 :: q)), none) := Cut_of_not_mem _ _ hfrag
  have hctl : (go "https://" ++ (a ++ (p ++ 63 :: q))).any
      (fun b => decide (b.toNat < 32) || decide (b.toNat = 127)) = false := by
    simp only [List.any_append, List.any_cons, hpre.any_ctl, ha.any_ctl, hp.any_ctl,
      hq.any_ctl, Bool.false_or, Bool.or_false]
    decide
  have hrest : go "//" ++ (a ++ (p ++ 63 :: q)) = (go "//" ++ (a ++ p)) ++ 63 :: q := by
    simp only [List.append_assoc]
  have hq1 : Cut 63 (go "//" ++ (a ++ (p ++ 63 :: q))) = (go "//" ++ (a ++ p), some q) := by
    rw [hrest]
    exact Cut_append _ _ _
      ((show Plain (go "//") by unfold Plain; decide).append (ha.append hp)).not_mem.1
  have hlast : (decide ((go "//" ++ (a ++ (p ++ 63 :: q))).getLast? = some 63) &&
      decide ((go "//" ++ (a ++ (p ++ 63 :: q))).count 63 = 1)) = false := by
    have : (go "//" ++ (a ++ (p ++ 63 :: q))).getLast? ≠ some 63 := by
      rw [hrest]
      intro h
      have hq' : (63 :: q).getLast? = q.getLast? := by
        cases q with
        | nil => exact absurd rfl hq0
        | cons c q => simp [List.getLast?_cons_cons]
      rw [List.getLast?_append_of_ne_nil _ (by simp), hq'] at h
      exact hq.not_mem.1 (List.mem_of_getLast?_eq_some h)
    rw [decide_eq_false this, Bool.false_and]
  have hpfx2 : CutPrefix (go "//" ++ (a ++ p)) (go "//") = some (a ++ p) :=
    CutPrefix_append _ _
  have htw := takeWhile_authority a p ha2 hp0
  unfold Parse
  simp only [hcut, hctl, CutPrefix_https, hq1, hlast]
  simp [hpfx2, htw.1, htw.2, unescape_of_not_mem p hp1, unescape]


theorem RequestURI_of_valid (a p q : GoString)
    (hv : validEncoded p = true) (hu : unescape p = some p) (hs : 47 ∈ p) :
    (URL.mk a p (if escape p = p then [] else p) false q []).RequestURI =
      if q = [] then p else p ++ go "?" ++ q := by
  have hne : p ≠ [] := by
    intro e
    rw [e] at hs
    simp at hs
  unfold URL.RequestURI
  rw [EscapedPath_of_valid a p q [] false hv hu hs]
  by_cases hq : q = [] <;> simp [hq, hne]

theorem hostChars_plain (a : GoString) (h : ∀ b ∈ a, b ∈ hostChars) :
    Plain a ∧ ∀ b ∈ a, b ≠ 47 := by
  have key : ∀ b ∈ hostChars, (b ≠ 63 ∧ b ≠ 35 ∧ ¬ (b.toNat < 32) ∧ b.toNat ≠ 127) ∧ b ≠ 47 := by
    decide
  exact ⟨fun b hb => (key b (h b hb)).1, fun b hb => (key b (h b hb)).2⟩

theorem pathChars_plain (p : GoString) (h : ∀ b ∈ p, b ∈ pathChars) :
    Plain p ∧ 37 ∉ p ∧ validEncoded p = true := by
  have key : ∀ b ∈ pathChars, (b ≠ 63 ∧ b ≠ 35 ∧ ¬ (b.toNat < 32) ∧ b.toNat ≠ 127) ∧ b ≠ 37 ∧
      (decide (b ∈ go "!$&()*+,;=:@[]%") || decide (b.toNat = 39) || !shouldEscape b) = true := by
    decide
  refine ⟨fun b hb => (key b (h b hb)).1, fun hm => (key 37 (h 37 hm)).2.1 rfl, ?_⟩
  unfold validEncoded
  rw [List.all_eq_true]
  exact fun b hb => (key b (h b hb)).2.2

theorem queryChars_plain (x : GoString) (h : ∀ b ∈ x, b ∈ models.queryChars)
    (hfrag : 35 ∉ x) : Plain x := by
  have key : ∀ b ∈ models.queryChars, b ≠ 63 ∧ ¬ (b.toNat < 32) ∧ b.toNat ≠ 127 := by decide
  intro b hb
  have := key b (h b hb)
  exact ⟨this.1, fun e => hfrag (e ▸ hb), this.2.1, this.2.2⟩

theorem queryChars_valid (x : GoString) (h : ∀ b ∈ x, b ∈ models.queryChars)
    (hfrag : 35 ∉ x) (hcaret : 94 ∉ x) : validEncoded x = true := by
  have key : ∀ b ∈ models.queryChars, b ≠ 35 → b ≠ 94 →
      (decide (b ∈ go "!$&()*+,;=:@[]%") || decide (b.toNat = 39) || !shouldEscape b) = true := by
    decide
  unfold validEncoded
  rw [List.all_eq_true]
  exact fun b hb => key b (h b hb) (fun e => hfrag (e ▸ hb)) (fun e => hcaret (e ▸ hb))

theorem validEncoded_append (s t : GoString) :
    validEncoded (s ++ t) = (validEncoded s && validEncoded t) := by
  simp [validEncoded, List.all_append]

/-- The URL of `create`: the list name is the value of the query. -/
theorem Parse_create (authority base listname : GoString)
    (hhost : ∀ b ∈ authority, b ∈ hostChars) (hbase : ∀ b ∈ base, b ∈ pathChars)
    (hslash : base = [] ∨ base.head? = some 47)
    (hname : ∀ b ∈ listname, b ∈ models.queryChars) (hfrag : 35 ∉ listname) :
    ∃ u, Parse (go "https://" ++ authority ++ base ++ (go "/lists?name=" ++ listname)) = some u ∧
      u.Authority = authority ∧ u.Path = base ++ go "/lists" ∧
      u.RawQuery = go "name=" ++ listname ∧ u.Fragment = [] ∧
      u.RequestURI = base ++ go "/lists?name=" ++ listname := by
  have ha := hostChars_plain authority hhost
  have hb := pathChars_plain base hbase
  have hl := pathChars_plain (go "/lists") (by decide)
  have hp : Plain (base ++ go "/lists") := hb.1.append hl.1
  have hp0 : base ++ go "/lists" = [] ∨ (base ++ go "/lists").head? = some 47 := by
    right
    rcases hslash with rfl | h
    · decide
    · cases base with
      | nil => simp at h
      | cons c base => simpa using h
  have hp1 : 37 ∉ base ++ go "/lists" := by
    simp only [List.mem_append, not_or]
    exact ⟨hb.2.1, hl.2.1⟩
  have hq : Plain (go "name=" ++ listname) :=
    (show Plain (go "name=") by unfold Plain; decide).append (queryChars_plain listname hname hfrag)
  have hq0 : go "name=" ++ listname ≠ [] := by
    have : go "name=" ≠ [] := by decide
    simp [this]
  have htext : go "https://" ++ authority ++ base ++ (go "/lists?name=" ++ listname) =
      go "https://" ++ (authority ++ ((base ++ go "/lists") ++ 63 :: (go "name=" ++ listname))) := by
    have : go "/lists?name=" = go "/lists" ++ 63 :: go "name=" := by decide
    rw [this]
    simp only [List.append_assoc, List.cons_append]
  have hv : validEncoded (base ++ go "/lists") = true := by
    rw [validEncoded_append, hb.2.2, hl.2.2]; rfl
  have hs : (47 : UInt8) ∈ base ++ go "/lists" := by
    have : (47 : UInt8) ∈ go "/lists" := by decide
    simp [this]
  refine ⟨_, htext ▸ Parse_query authority _ _ ha.1 ha.2 hp hp0 hp1 hq hq0, rfl, rfl, rfl, rfl, ?_⟩
  rw [RequestURI_of_valid _ _ _ hv (unescape_of_not_mem _ hp1) hs, if_neg hq0]
  have : go "/lists?name=" = go "/lists" ++ go "?" ++ go "name=" := by decide
  rw [this]
  simp only [List.append_assoc]

/-- The URL of `update`: the list name is the last segment of the path. -/
theorem Parse_update (authority base listname : GoString)
    (hhost : ∀ b ∈ authority, b ∈ hostChars) (hbase : ∀ b ∈ base, b ∈ pathChars)
    (hslash : base = [] ∨ base.head? = some 47)
    (hname : ∀ b ∈ listname, b ∈ models.queryChars) (hfrag : 35 ∉ listname)
    (hpct : 37 ∉ listname) (hcaret : 94 ∉ listname) :
    ∃ u, Parse (go "https://" ++ authority ++ base ++ (go "/lists/" ++ listname)) = some u ∧
      u.Authority = authority ∧ u.Path = base ++ go "/lists/" ++ listname ∧
      u.RawQuery = [] ∧ u.Fragment = [] ∧
      u.RequestURI = base ++ go "/lists/" ++ listname := by
  have ha := hostChars_plain authority hhost
  have hb := pathChars_plain base hbase
  have hl := pathChars_plain (go "/lists/") (by decide)
  have hx := queryChars_plain listname hname hfrag
  have hp : Plain (base ++ go "/lists/" ++ listname) := (hb.1.append hl.1).append hx
  have hp0 : base ++ go "/lists/" ++ listname = [] ∨
      (base ++ go "/lists/" ++ listname).head? = some 47 := by
    right
    rcases hslash with rfl | h
    · have : go "/lists/" = 47 :: go "lists/" := by decide
      rw [this]; rfl
    · cases base with
      | nil => simp at h
      | cons c base => simpa using h
  have hp1 : 37 ∉ base ++ go "/lists/" ++ listname := by
    simp only [List.mem_append, not_or]
    exact ⟨⟨hb.2.1, hl.2.1⟩, hpct⟩
  have htext : go "https://" ++ authority ++ base ++ (go "/lists/" ++ listname) =
      go "https://" ++ (authority ++ (base ++ go "/lists/" ++ listname)) := by
    simp only [List.append_assoc]
  have hv : validEncoded (base ++ go "/lists/" ++ listname) = true := by
    rw [validEncoded_append, validEncoded_append, hb.2.2, hl.2.2,
      queryChars_valid listname hname hfrag hcaret]; rfl
  have hs : (47 : UInt8) ∈ base ++ go "/lists/" ++ listname := by
    have : (47 : UInt8) ∈ go "/lists/" := by decide
    simp [this]
  refine ⟨_, htext ▸ Parse_path authority _ ha.1 ha.2 hp hp0 hp1, rfl, rfl, rfl, rfl, ?_⟩
  rw [RequestURI_of_valid _ _ _ hv (unescape_of_not_mem _ hp1) hs, if_pos rfl]

/-- The URL of a route without a query: the route follows the base path. -/
theorem Parse_route (authority base route : GoString)
    (hhost : ∀ b ∈ authority, b ∈ hostChars) (hbase : ∀ b ∈ base, b ∈ pathChars)
    (hslash : base = [] ∨ base.head? = some 47)
    (hroute : ∀ b ∈ route, b ∈ pathChars) (hroute0 : route.head? = some 47) :
    ∃ u, Parse (go "https://" ++ authority ++ base ++ route) = some u ∧
      u.Path = base ++ route ∧ u.RawQuery = [] ∧ u.Fragment = [] ∧
      u.RequestURI = base ++ route := by
  have ha := hostChars_plain authority hhost
  have hp := pathChars_plain (base ++ route) (by
    intro b hb
    rcases List.mem_append.1 hb with h | h
    · exact hbase b h
    · exact hroute b h)
  have hp0 : base ++ route = [] ∨ (base ++ route).head? = some 47 := by
    right
    rcases hslash with rfl | h
    · simpa using hroute0
    · cases base with
      | nil => simp at h
      | cons c base => simpa using h
  have hs : (47 : UInt8) ∈ base ++ route := by
    cases route with
    | nil => simp at hroute0
    | cons c route =>
      have : c = 47 := by simpa using hroute0
      simp [this]
  have htext : go "https://" ++ authority ++ base ++ route =
      go "https://" ++ (authority ++ (base ++ route)) := by
    simp only [List.append_assoc]
  refine ⟨_, htext ▸ Parse_path authority _ ha.1 ha.2 hp.1 hp0 hp.2.1, rfl, rfl, rfl, ?_⟩
  rw [RequestURI_of_valid _ _ _ hp.2.2 (unescape_of_not_mem _ hp.2.1) hs, if_pos rfl]

end neturl

namespace api

open models

theorem scanLinesFrom_line (l : GoString) :
    ∀ (cur rest : GoString), 10 ∉ l → (cur ++ l).length < MaxScanTokenSize →
      scanLinesFrom cur (l ++ 10 :: rest) = dropCR (cur ++ l) :: scanLinesFrom [] rest := by
  induction l with
  | nil =>
    intro cur rest _ hlen
    have h : ¬ (MaxScanTokenSize ≤ cur.length) := by simpa using hlen
    simp [scanLinesFrom, h]
  | cons b l ih =>
    intro cur rest hmem hlen
    have hb : b ≠ 10 := fun h => hmem (by simp [h])
    have hl : 10 ∉ l := fun h => hmem (by simp [h])
    have := ih (cur ++ [b]) rest hl (by simpa using hlen)
    simpa [scanLinesFrom, hb] using this

theorem scanLinesFrom_last (l : GoString) :
    ∀ (cur : GoString), 10 ∉ l → (cur ++ l).length < MaxScanTokenSize → cur ++ l ≠ [] →
      scanLinesFrom cur l = [dropCR (cur ++ l)] := by
  induction l with
  | nil =>
    intro cur _ hlen hne
    have h : ¬ (MaxScanTokenSize ≤ cur.length) := by simpa using hlen
    have hc : cur ≠ [] := by simpa using hne
    simp [scanLinesFrom, h, hc]
  | cons b l ih =>
    intro cur hmem hlen _
    have hb : b ≠ 10 := fun h => hmem (by simp [h])
    have hl : 10 ∉ l := fun h => hmem (by simp [h])
    have := ih (cur ++ [b]) hl (by simpa using hlen) (by simp)
    simpa [scanLinesFrom, hb] using this

/-- The scanner stops at a line of `MaxScanTokenSize` bytes or more: that line and all the
lines after it are lost. -/
theorem scanLinesFrom_too_long (l : GoString) :
    ∀ (cur rest : GoString), 10 ∉ l → MaxScanTokenSize ≤ (cur ++ l).length →
      scanLinesFrom cur (l ++ 10 :: rest) = [] := by
  induction l with
  | nil =>
    intro cur rest _ hlen
    have h : MaxScanTokenSize ≤ cur.length := by simpa using hlen
    simp [scanLinesFrom, h]
  | cons b l ih =>
    intro cur rest hmem hlen
    have hb : b ≠ 10 := fun h => hmem (by simp [h])
    have hl : 10 ∉ l := fun h => hmem (by simp [h])
    have := ih (cur ++ [b]) rest hl (by simpa using hlen)
    simpa [scanLinesFrom, hb] using this

/-- The scanner returns the lines of a file in order, each without its terminator: for a
file made of the lines `raw`, each followed by a newline, and of a last line `last` without
newline (none when `last` is empty), all shorter than the buffer. -/
theorem scanLines_lines (raw : List GoString) (last : GoString)
    (hraw : ∀ l ∈ raw, 10 ∉ l ∧ l.length < MaxScanTokenSize)
    (hlast : 10 ∉ last ∧ last.length < MaxScanTokenSize) :
    scanLines (raw.flatMap (fun l => l ++ [10]) ++ last) =
      (raw ++ if last = [] then [] else [last]).map dropCR := by
  unfold scanLines
  induction raw with
  | nil =>
    by_cases h : last = []
    · subst h
      simp [scanLinesFrom]
    · simpa [h] using scanLinesFrom_last last [] hlast.1 (by simpa using hlast.2) (by simpa using h)
  | cons l raw ih =>
    have hl := hraw l (by simp)
    have ih2 := ih (fun x hx => hraw x (by simp [hx]))
    have := scanLinesFrom_line l [] (raw.flatMap (fun l => l ++ [10]) ++ last) hl.1
      (by simpa using hl.2)
    simp only [List.flatMap_cons, List.append_assoc, List.singleton_append, List.nil_append,
      List.cons_append, List.map_cons] at this ⊢
    rw [this, ih2]

theorem PostRequest_sent (w : World) (url route jwt : GoString) (data : Body)
    (hurl : w.newRequest (url ++ route) = none) :
    (PostRequest w url route data jwt).sent =
      [⟨go "POST", url ++ route,
        (if jwt = [] then [] else [(go "Authorization", go "Bearer " ++ jwt)]) ++
          [(go "Content-Type", go "application/json")], some data⟩] := by
  unfold PostRequest
  simp only [hurl]
  by_cases hj : jwt = [] <;> simp [hj]

theorem SubmitFounds_sent (w : World) (url jwt alg infile content : GoString)
    (hfile : w.readFile infile = .ok content) :
    (SubmitFounds w url jwt alg infile).sent =
      (PostRequest w url (go "/found")
        (.json (marshalUploadHashes ⟨alg, scanLines content⟩)) jwt).sent := by
  unfold SubmitFounds
  simp only [hfile]
  split <;> rfl

theorem scanLines_too_long (n : Nat) (hn : MaxScanTokenSize ≤ n) (rest : GoString) :
    scanLines (List.replicate n 97 ++ 10 :: rest) = [] := by
  unfold scanLines
  apply scanLinesFrom_too_long
  · simp
  · simpa using hn

theorem coerceFrom_of_valid (s : GoString) :
    ∀ k : Nat, utf8.validFrom k s = true → utf8.coerceFrom k s = s := by
  induction s with
  | nil => intro k _; cases k <;> rfl
  | cons b rest ih =>
    intro k h
    cases k with
    | succ k =>
      simp only [utf8.validFrom] at h
      simp only [utf8.coerceFrom, ih k h]
    | zero =>
      simp only [utf8.validFrom] at h
      simp only [utf8.coerceFrom]
      cases hn : utf8.runeLen (b :: rest) with
      | zero => rw [hn] at h; simp at h
      | succ n =>
        rw [hn] at h
        simp only [ih n h]

/-- C8, as amended: for a readable file that has at least one line and whose lines (each
ended by a newline, the last one possibly not) are shorter than 64 KiB, and a URL that
`http.NewRequest` accepts, `SubmitFounds` hands the HTTP client exactly one request: a POST
built from the URL text `url ++ "/found"`, with the header `Content-Type: application/json`,
preceded by `Authorization: Bearer jwt` when `jwt` is not empty and by no Authorization
header when it is empty; the body is the JSON object with `algorithm` equal to `alg` and
`hash-plain` equal to the array of the lines of the file in file order, none dropped, moved
or merged, each without its line terminator (a newline, with the carriage return before it
if any), where `alg` and the lines are written as JSON strings, that is, coerced to valid
UTF-8 (each byte that begins no valid sequence replaced by U+FFFD); a string that is valid
UTF-8 is written unchanged.  When the server URL is `https://AUTHORITY BASE` (AUTHORITY of
letters, digits and `.-:`, BASE empty or a path that begins with `/`, of letters, digits and
`/ - _ . ~`), the URL of the request has the path and request target `BASE ++ "/found"`, no
query and no fragment. -/
theorem SubmitFounds_posts_lines (w : World) (url jwt alg infile : GoString)
    (raw : List GoString) (last s authority base : GoString)
    (hraw : ∀ l ∈ raw, 10 ∉ l ∧ l.length < MaxScanTokenSize)
    (hlast : 10 ∉ last ∧ last.length < MaxScanTokenSize)
    (hne : raw ++ (if last = [] then [] else [last]) ≠ [])
    (hfile : w.readFile infile = .ok (raw.flatMap (fun l => l ++ [10]) ++ last))
    (hurl : w.newRequest (url ++ go "/found") = none) :
    (SubmitFounds w url jwt alg infile).sent =
      [⟨go "POST", url ++ go "/found",
        (if jwt = [] then [] else [(go "Authorization", go "Bearer " ++ jwt)]) ++
          [(go "Content-Type", go "application/json")],
        some (.json (.object [(go "algorithm", .str (utf8.coerce alg)),
          (go "hash-plain", .array ((raw ++ if last = [] then [] else [last]).map
              (fun l => .str (utf8.coerce (dropCR l)))))]))⟩] ∧
    (utf8.ValidString s = true → utf8.coerce s = s) ∧
    (url = go "https://" ++ authority ++ base →
      (∀ b ∈ authority, b ∈ neturl.hostChars) → (∀ b ∈ base, b ∈ neturl.pathChars) →
      (base = [] ∨ base.head? = some 47) →
      ∃ u, neturl.Parse (url ++ go "/found") = some u ∧ u.Path = base ++ go "/found" ∧
        u.RawQuery = [] ∧ u.Fragment = [] ∧ u.RequestURI = base ++ go "/found") := by
  refine ⟨?_, coerceFrom_of_valid s 0, ?_⟩
  · rw [SubmitFounds_sent w url jwt alg infile _ hfile, PostRequest_sent w url _ jwt _ hurl,
      scanLines_lines raw last hraw hlast]
    congr 4
    unfold marshalUploadHashes marshalStrings
    simp [Function.comp_def]
    intro hr hl
    exact hne (by simp [hr, hl])
  · intro hform hhost hbase hslash
    rw [hform]
    exact neturl.Parse_route authority base (go "/found") hhost hbase hslash
      (by decide) (by decide)

/-- The spec's example for C8: `submit 0 hashes.txt` with the file `h1\nh2` posts the
document with algorithm `0` and hash-plain `["h1","h2"]` to `/api/found` with the bearer
token; the lines are valid UTF-8 and are written unchanged. -/
theorem SubmitFounds_posts_lines_witness :
    ((∀ l ∈ [go "h1"], 10 ∉ l ∧ l.length < MaxScanTokenSize) ∧
      (10 ∉ go "h2" ∧ (go "h2").length < MaxScanTokenSize) ∧
      [go "h1"] ++ (if go "h2" = [] then [] else [go "h2"]) ≠ [] ∧
      [go "h1"].flatMap (fun l => l ++ [10]) ++ go "h2" = go "h1\nh2" ∧
      utf8.ValidString (go "h1") = true ∧
      go "https://oha.example:8080/api" = go "https://" ++ go "oha.example:8080" ++ go "/api" ∧
      (∀ b ∈ go "oha.example:8080", b ∈ neturl.hostChars) ∧
      (∀ b ∈ go "/api", b ∈ neturl.pathChars)) ∧
    (SubmitFounds (exampleWorld (go "h1\nh2") okResponse) (go "https://oha.example:8080/api")
      (go "tok") (go "0") (go "hashes.txt")).sent =
      [⟨go "POST", go "https://oha.example:8080/api/found",
        [(go "Authorization", go "Bearer tok"), (go "Content-Type", go "application/json")],
        some (.json (.object [(go "algorithm", .str (go "0")),
          (go "hash-plain", .array [.str (go "h1"), .str (go "h2")])]))⟩] ∧
    utf8.coerce (go "h1") = go "h1" ∧
    (∃ u, neturl.Parse (go "https://oha.example:8080/api" ++ go "/found") = some u ∧
      u.Path = go "/api/found" ∧ u.RawQuery = [] ∧ u.Fragment = [] ∧
      u.RequestURI = go "/api/found") :=
  ⟨⟨by decide, by decide, by decide, by decide, by decide, by decide, by decide, by decide⟩,
    (SubmitFounds_posts_lines (exampleWorld (go "h1\nh2") okResponse)
      (go "https://oha.example:8080/api") (go "tok") (go "0") (go "hashes.txt")
      [go "h1"] (go "h2") (go "h1") (go "oha.example:8080") (go "/api")
      (by decide) (by decide) (by decide) rfl rfl).1,
    (SubmitFounds_posts_lines (exampleWorld (go "h1\nh2") okResponse)
      (go "https://oha.example:8080/api") (go "tok") (go "0") (go "hashes.txt")
      [go "h1"] (go "h2") (go "h1") (go "oha.example:8080") (go "/api")
      (by decide) (by decide) (by decide) rfl rfl).2.1 (by decide),
    (SubmitFounds_posts_lines (exampleWorld (go "h1\nh2") okResponse)
      (go "https://oha.example:8080/api") (go "tok") (go "0") (go "hashes.txt")
      [go "h1"] (go "h2") (go "h1") (go "oha.example:8080") (go "/api")
      (by decide) (by decide) (by decide) rfl rfl).2.2 (by decide) (by decide) (by decide)
      (by decide)⟩

/-- C8 as stated fails.  With the empty token the request carries no Authorization header;
for the empty file `hash-plain` is `null`, not an array; after a first line of 65536 bytes
the second line `h2` is lost (`hash-plain` is `null` again); of the line `h1\r` the
carriage return is removed; the line of the two bytes `68 FF`, which is not valid UTF-8,
is sent as `h` followed by U+FFFD; and with the server URL `https://oha.example:8080/api#v1`
the target of the request is `/api`, without `/found`. -/
theorem SubmitFounds_claim_fails :
    (SubmitFounds (exampleWorld (go "h1\nh2") okResponse) (go "https://oha.example:8080/api")
      (go "") (go "0") (go "hashes.txt")).sent.map (fun r => r.header) =
        [[(go "Content-Type", go "application/json")]] ∧
    (SubmitFounds (exampleWorld (go "") okResponse) (go "https://oha.example:8080/api")
      (go "tok") (go "0") (go "hashes.txt")).sent.map (fun r => r.body) =
        [some (.json (.object [(go "algorithm", .str (go "0")), (go "hash-plain", .null)]))] ∧
    (SubmitFounds (exampleWorld (List.replicate MaxScanTokenSize 97 ++ 10 :: go "h2") okResponse)
      (go "https://oha.example:8080/api")
      (go "tok") (go "0") (go "hashes.txt")).sent.map (fun r => r.body) =
        [some (.json (.object [(go "algorithm", .str (go "0")), (go "hash-plain", .null)]))] ∧
    (SubmitFounds (exampleWorld (go "h1\r\nh2") okResponse) (go "https://oha.example:8080/api")
      (go "tok") (go "0") (go "hashes.txt")).sent.map (fun r => r.body) =
        [some (.json (.object [(go "algorithm", .str (go "0")),
          (go "hash-plain", .array [.str (go "h1"), .str (go "h2")])]))] ∧
    (SubmitFounds (exampleWorld [0x68, 0xFF] okResponse) (go "https://oha.example:8080/api")
      (go "tok") (go "0") (go "hashes.txt")).sent.map (fun r => r.body) =
        [some (.json (.object [(go "algorithm", .str (go "0")),
          (go "hash-plain", .array [.str [0x68, 0xEF, 0xBF, 0xBD]])]))] ∧
    (SubmitFounds (exampleWorld (go "h1\nh2") okResponse)
      (go "https://oha.example:8080/api#v1")
      (go "tok") (go "0") (go "hashes.txt")).sent.map
        (fun r => (neturl.Parse r.url).map (fun u => u.RequestURI)) =
        [some (go "/api")] := by
  refine ⟨by decide, rfl, ?_, rfl, rfl, by decide⟩
  rw [SubmitFounds_sent _ _ _ _ _ _ rfl, PostRequest_sent _ _ _ _ _ rfl,
    scanLines_too_long _ (Nat.le_refl _)]
  rfl

theorem printFounds_rows (cs : List JSON) (rows : List (GoString × GoString × GoString))
    (h : List.Forall₂ IsFound cs rows) :
    printFounds cs = ⟨rows.flatMap foundLine, .ret ()⟩ := by
  induction h with
  | nil => rfl
  | cons hc _ ih =>
    obtain ⟨m, rfl, ha, hh, hp⟩ := hc
    simp [printFounds, ih, ha, hh, hp, JSON.fmtS, JSON.fmtValueS, foundLine]

theorem SearchFounds_of_response (w : World) (url jwt infile content : GoString)
    (res : Response)
    (hfile : w.readFile infile = .ok content)
    (hpost : (PostRequest w url (go "/search")
      (.json (marshalSearchHashes ⟨scanLines content⟩)) jwt).ret = .ok res) :
    (SearchFounds w url jwt infile).stdout = (renderFounds (unmarshalMap res)).stdout ∧
    (SearchFounds w url jwt infile).result =
      (match (renderFounds (unmarshalMap res)).ret with
        | .ret _ => .ret none
        | .panicked => .panicked) := by
  unfold SearchFounds
  simp only [hfile, hpost]
  cases (renderFounds (unmarshalMap res)).ret <;> exact ⟨rfl, rfl⟩

/-- C9: when the search request is answered by a JSON object whose member `found` is an
array of objects that each have string members `algorithm`, `hash` and `plaintext`,
`SearchFounds` returns without error and its output is one line for each element of the
array, in the order of the array, each line being `algorithm | hash:plaintext`. -/
theorem SearchFounds_prints_one_line_per_found (w : World)
    (url jwt infile content : GoString) (res : Response) (body : List (GoString × JSON))
    (cs : List JSON) (rows : List (GoString × GoString × GoString))
    (hfile : w.readFile infile = .ok content)
    (hpost : (PostRequest w url (go "/search")
      (.json (marshalSearchHashes ⟨scanLines content⟩)) jwt).ret = .ok res)
    (hdoc : res.doc = some (.object body))
    (hfound : JSON.lookup body "found" = .array cs)
    (hrows : List.Forall₂ IsFound cs rows) :
    (SearchFounds w url jwt infile).stdout =
      rows.flatMap (fun row => row.1 ++ go " | " ++ row.2.1 ++ go ":" ++ row.2.2 ++ go "\n") ∧
    (SearchFounds w url jwt infile).result = .ret none := by
  have h := SearchFounds_of_response w url jwt infile content res hfile hpost
  have hr : renderFounds (unmarshalMap res) = ⟨rows.flatMap foundLine, .ret ()⟩ := by
    simp [renderFounds, unmarshalMap, hdoc, hfound, printFounds_rows cs rows hrows]
  rw [hr] at h
  exact h

/-- The spec's example for C9: the response with the one match `md5`, `abc`, `pw1` prints
exactly the line `md5 | abc:pw1`. -/
theorem SearchFounds_prints_one_line_per_found_witness :
    (md5Response.doc = some (.object [(go "found", .array [.object
        [(go "algorithm", .str (go "md5")), (go "hash", .str (go "abc")),
          (go "plaintext", .str (go "pw1"))]])]) ∧
      List.Forall₂ IsFound [.object [(go "algorithm", .str (go "md5")),
        (go "hash", .str (go "abc")), (go "plaintext", .str (go "pw1"))]]
        [(go "md5", go "abc", go "pw1")]) ∧
    (SearchFounds (exampleWorld (go "abc") md5Response) (go "https://oha.example:8080/api")
      (go "tok") (go "hashes.txt")).stdout = go "md5 | abc:pw1\n" ∧
    (SearchFounds (exampleWorld (go "abc") md5Response) (go "https://oha.example:8080/api")
      (go "tok") (go "hashes.txt")).result = .ret none :=
  ⟨⟨rfl, List.Forall₂.cons ⟨_, rfl, rfl, rfl, rfl⟩ List.Forall₂.nil⟩,
    SearchFounds_prints_one_line_per_found (exampleWorld (go "abc") md5Response)
      (go "https://oha.example:8080/api") (go "tok") (go "hashes.txt") (go "abc") md5Response
      [(go "found", .array [.object [(go "algorithm", .str (go "md5")),
        (go "hash", .str (go "abc")), (go "plaintext", .str (go "pw1"))]])]
      [.object [(go "algorithm", .str (go "md5")),
        (go "hash", .str (go "abc")), (go "plaintext", .str (go "pw1"))]]
      [(go "md5", go "abc", go "pw1")]
      rfl rfl rfl rfl
      (List.Forall₂.cons ⟨_, rfl, rfl, rfl, rfl⟩ List.Forall₂.nil)⟩

/-- C10, as amended: when the search request is answered by a JSON object whose member
`found` is the string `[]`, `SearchFounds` returns without error and prints one empty line:
the text it writes to standard output is a single newline. -/
theorem SearchFounds_sentinel_prints_empty_line (w : World)
    (url jwt infile content : GoString) (res : Response) (body : List (GoString × JSON))
    (hfile : w.readFile infile = .ok content)
    (hpost : (PostRequest w url (go "/search")
      (.json (marshalSearchHashes ⟨scanLines content⟩)) jwt).ret = .ok res)
    (hdoc : res.doc = some (.object body))
    (hfound : JSON.lookup body "found" = .str (go "[]")) :
    (SearchFounds w url jwt infile).stdout = go "\n" ∧
    (SearchFounds w url jwt infile).result = .ret none := by
  have h := SearchFounds_of_response w url jwt infile content res hfile hpost
  have hr : renderFounds (unmarshalMap res) = ⟨go "\n", .ret ()⟩ := by
    simp [renderFounds, unmarshalMap, hdoc, hfound]
    rfl
  rw [hr] at h
  exact h

/-- An instance of the amended C10: the response with `found` equal to the string `[]`. -/
theorem SearchFounds_sentinel_prints_empty_line_witness :
    (sentinelResponse.doc = some (.object [(go "found", .str (go "[]"))]) ∧
      JSON.lookup [(go "found", .str (go "[]"))] "found" = .str (go "[]")) ∧
    (SearchFounds (exampleWorld (go "abc") sentinelResponse)
      (go "https://oha.example:8080/api") (go "tok") (go "hashes.txt")).stdout = go "\n" ∧
    (SearchFounds (exampleWorld (go "abc") sentinelResponse)
      (go "https://oha.example:8080/api") (go "tok") (go "hashes.txt")).result = .ret none :=
  ⟨⟨rfl, rfl⟩,
    SearchFounds_sentinel_prints_empty_line (exampleWorld (go "abc") sentinelResponse)
      (go "https://oha.example:8080/api") (go "tok") (go "hashes.txt") (go "abc")
      sentinelResponse [(go "found", .str (go "[]"))] rfl rfl rfl rfl⟩

/-- C10 as stated fails: for the response with `found` equal to the string `[]` the text
written to standard output is not empty, it is the one byte of a newline. -/
theorem SearchFounds_sentinel_output_not_empty :
    (SearchFounds (exampleWorld (go "abc") sentinelResponse)
      (go "https://oha.example:8080/api") (go "tok") (go "hashes.txt")).stdout = [10] ∧
    (SearchFounds (exampleWorld (go "abc") sentinelResponse)
      (go "https://oha.example:8080/api") (go "tok") (go "hashes.txt")).stdout ≠ [] := by
  decide

end api

namespace api

open models

theorem ServerAuthenticate_of_response (w : World) (decodeErr : GoString → GoString)
    (url username password : GoString) (res : Response) (body : List (GoString × JSON))
    (hurl : w.newRequest (url ++ go "/login") = none)
    (hres : w.roundTrip (loginRequest url username password) = .ok res)
    (hdoc : res.doc = some (.object body)) :
    (ServerAuthenticate w decodeErr url username password).ret =
      (match JSON.lookup body "error" with
        | .null => (JSON.fmtV (JSON.lookup body "token"), none)
        | _ => ([], some (go "username or password is incorrect"))) ∧
    (ServerAuthenticate w decodeErr url username password).sent =
      [loginRequest url username password] := by
  unfold ServerAuthenticate
  simp only [hurl, hres, unmarshalBody, hdoc]
  cases JSON.lookup body "error" <;> exact ⟨rfl, rfl⟩

/-- C11: `ServerAuthenticate` masks the error message of the server.  For any two login
responses that are JSON objects with a member `error` that is not null, whatever these
members and the other members hold, the two calls return the same result: the empty token
and the error `username or password is incorrect`, in which nothing of the response
appears. -/
theorem ServerAuthenticate_masks_error (w1 w2 : World) (decodeErr1 decodeErr2 : GoString → GoString)
    (url username password : GoString) (res1 res2 : Response)
    (body1 body2 : List (GoString × JSON))
    (hurl1 : w1.newRequest (url ++ go "/login") = none)
    (hurl2 : w2.newRequest (url ++ go "/login") = none)
    (hres1 : w1.roundTrip (loginRequest url username password) = .ok res1)
    (hres2 : w2.roundTrip (loginRequest url username password) = .ok res2)
    (hdoc1 : res1.doc = some (.object body1))
    (hdoc2 : res2.doc = some (.object body2))
    (herr1 : JSON.lookup body1 "error" ≠ .null)
    (herr2 : JSON.lookup body2 "error" ≠ .null) :
    (ServerAuthenticate w1 decodeErr1 url username password).ret =
      (ServerAuthenticate w2 decodeErr2 url username password).ret ∧
    (ServerAuthenticate w1 decodeErr1 url username password).ret =
      ([], some (go "username or password is incorrect")) := by
  have h1 := (ServerAuthenticate_of_response w1 decodeErr1 url username password res1 body1
    hurl1 hres1 hdoc1).1
  have h2 := (ServerAuthenticate_of_response w2 decodeErr2 url username password res2 body2
    hurl2 hres2 hdoc2).1
  have e1 : (ServerAuthenticate w1 decodeErr1 url username password).ret =
      ([], some (go "username or password is incorrect")) := by
    rw [h1]; cases h : JSON.lookup body1 "error" <;> first | rfl | exact absurd h herr1
  have e2 : (ServerAuthenticate w2 decodeErr2 url username password).ret =
      ([], some (go "username or password is incorrect")) := by
    rw [h2]; cases h : JSON.lookup body2 "error" <;> first | rfl | exact absurd h herr2
  exact ⟨e1.trans e2.symm, e1⟩

/-- An instance of C11: the responses with the errors `no such user` and `wrong password`
(each with a token as well) give the same result, the generic error. -/
theorem ServerAuthenticate_masks_error_witness :
    (JSON.lookup [(go "error", JSON.str (go "no such user")), (go "token", .str (go "t"))]
        "error" ≠ .null ∧
      JSON.lookup [(go "error", JSON.str (go "wrong password")), (go "token", .str (go "t"))]
        "error" ≠ .null) ∧
    (ServerAuthenticate (exampleWorld [] (errorResponse "no such user")) (fun t => t)
        (go "https://oha.example:8080/api") (go "admin") (go "Correct-Horse-1")).ret =
      (ServerAuthenticate (exampleWorld [] (errorResponse "wrong password")) (fun t => t)
        (go "https://oha.example:8080/api") (go "admin") (go "Correct-Horse-1")).ret ∧
    (ServerAuthenticate (exampleWorld [] (errorResponse "no such user")) (fun t => t)
        (go "https://oha.example:8080/api") (go "admin") (go "Correct-Horse-1")).ret =
      ([], some (go "username or password is incorrect")) :=
  ⟨⟨by simp [JSON.lookup], by simp [JSON.lookup]⟩,
    ServerAuthenticate_masks_error (exampleWorld [] (errorResponse "no such user"))
      (exampleWorld [] (errorResponse "wrong password")) (fun t => t) (fun t => t)
      (go "https://oha.example:8080/api") (go "admin") (go "Correct-Horse-1")
      (errorResponse "no such user") (errorResponse "wrong password")
      [(go "error", .str (go "no such user")), (go "token", .str (go "t"))]
      [(go "error", .str (go "wrong password")), (go "token", .str (go "t"))]
      rfl rfl rfl rfl rfl rfl (by simp [JSON.lookup]) (by simp [JSON.lookup])⟩

/-- C12, at the failing input: the login response `{}` has no member `token`, and
`ServerAuthenticate` returns the text `<nil>` as the token, with no error. -/
theorem ServerAuthenticate_returns_nil_text_without_token :
    JSON.lookup [] "token" = .null ∧
    (ServerAuthenticate (exampleWorld [] emptyObjectResponse) (fun t => t)
      (go "https://oha.example:8080/api") (go "admin") (go "Correct-Horse-1")).ret =
      (go "<nil>", none) := by
  exact ⟨rfl, by decide⟩

end api

namespace main

open models config api Regex

theorem ValidateQueryStringArgs_four (prog command listname file : GoString)
    (hname : ∀ b ∈ listname, b ∈ queryChars) (hfile : ∀ b ∈ file, b ∈ queryChars) :
    ValidateQueryStringArgs [prog, command, listname, file] 2 = .ret (listname, none) ∧
    ValidateQueryStringArgs [prog, command, listname, file] 3 = .ret (file, none) := by
  have h2 : MatchString reQuery listname = true := (matchString_reQuery listname).2 hname
  have h3 : MatchString reQuery file = true := (matchString_reQuery file).2 hfile
  constructor
  · simp [ValidateQueryStringArgs, at?, h2]
  · simp [ValidateQueryStringArgs, at?, h3]

theorem upload_sent (w : World) (url jwt route content : GoString)
    (hurl : w.newRequest (url ++ route) = none) :
    ∀ run : Run,
      (run = match (PostRequest w url route (.raw content) jwt).ret with
        | .error err => ⟨(PostRequest w url route (.raw content) jwt).sent, [], .ret (some err)⟩
        | .ok res => ⟨(PostRequest w url route (.raw content) jwt).sent, res.text ++ go "\n",
            .ret none⟩) →
      ∀ sent, (handled sent run).sent = sent ++
        [⟨go "POST", url ++ route,
          (if jwt = [] then [] else [(go "Authorization", go "Bearer " ++ jwt)]) ++
            [(go "Content-Type", go "application/json")], some (.raw content)⟩] := by
  intro run hrun sent
  have hs := PostRequest_sent w url route jwt (.raw content) hurl
  subst hrun
  cases hp : (PostRequest w url route (.raw content) jwt).ret with
  | error err =>
    simp only [handled, checked, CheckError, hs]
  | ok res =>
    simp only [handled, checked, CheckError, hs]

/-- What `main` hands the HTTP client for the two list commands: the login request, then
one POST of the file to the URL text built from the list name. -/
theorem main_list_commands_sent (w : World) (decodeErr : GoString → GoString)
    (url : GoString) (configFile : Configuration)
    (prog listname file content jwt : GoString)
    (hauth : (ServerAuthenticate w decodeErr url configFile.ClientUsername
      configFile.ClientPassword).ret = (jwt, none))
    (hname : ∀ b ∈ listname, b ∈ queryChars) (hfilename : ∀ b ∈ file, b ∈ queryChars)
    (hfile : w.readFile file = .ok content) :
    (w.newRequest (url ++ (go "/lists?name=" ++ listname)) = none →
      ∃ p, main w decodeErr url configFile [prog, go "create", listname, file] = some p ∧
        p.sent = (ServerAuthenticate w decodeErr url configFile.ClientUsername
          configFile.ClientPassword).sent ++
          [⟨go "POST", url ++ (go "/lists?name=" ++ listname),
            (if jwt = [] then [] else [(go "Authorization", go "Bearer " ++ jwt)]) ++
              [(go "Content-Type", go "application/json")], some (.raw content)⟩]) ∧
    (w.newRequest (url ++ (go "/lists/" ++ listname)) = none →
      ∃ p, main w decodeErr url configFile [prog, go "update", listname, file] = some p ∧
        p.sent = (ServerAuthenticate w decodeErr url configFile.ClientUsername
          configFile.ClientPassword).sent ++
          [⟨go "POST", url ++ (go "/lists/" ++ listname),
            (if jwt = [] then [] else [(go "Authorization", go "Bearer " ++ jwt)]) ++
              [(go "Content-Type", go "application/json")], some (.raw content)⟩]) := by
  have hc := ValidateQueryStringArgs_four prog (go "create") listname file hname hfilename
  have hu := ValidateQueryStringArgs_four prog (go "update") listname file hname hfilename
  have hne : go "update" ≠ go "create" := by decide
  have hjwt : (ServerAuthenticate w decodeErr url configFile.ClientUsername
      configFile.ClientPassword).ret.1 = jwt := by rw [hauth]
  have herr : (ServerAuthenticate w decodeErr url configFile.ClientUsername
      configFile.ClientPassword).ret.2 = none := by rw [hauth]
  constructor
  · intro hurl
    refine ⟨caseCreate w decodeErr url configFile [prog, go "create", listname, file], ?_, ?_⟩
    · simp [main, at?]
    · simp only [caseCreate, herr, hjwt, checked, CheckError, validated, hc.1, hc.2,
        List.length_cons, List.length_nil]
      simp only [show ¬ (0 + 1 + 1 + 1 + 1 ≤ 2) by omega, if_false]
      exact upload_sent w url jwt _ content hurl _
        (by simp only [CreateNewPrivateList, hfile]) _
  · intro hurl
    refine ⟨caseUpdate w decodeErr url configFile [prog, go "update", listname, file], ?_, ?_⟩
    · simp [main, at?, hne]
    · simp only [caseUpdate, herr, hjwt, checked, CheckError, validated, hu.1, hu.2,
        List.length_cons, List.length_nil]
      simp only [show ¬ (0 + 1 + 1 + 1 + 1 ≤ 2) by omega, if_false]
      exact upload_sent w url jwt _ content hurl _
        (by simp only [UpdateTargetPrivateList, hfile]) _

/-- C13, as amended: for a server URL `https://AUTHORITY BASE` (AUTHORITY of letters,
digits and `.-:`, BASE empty or a path that begins with `/`, of letters, digits and
`/ - _ . ~`) and the command lines `create LISTNAME FILE` and `update LISTNAME FILE`, with both
arguments accepted by `ValidateQueryStringArgs` (the validator `main` applies to them), no
`#` in LISTNAME and, for `update`, no `%` and no `^` in it, a login that returns the token
`jwt`, a readable file and a URL that `http.NewRequest` accepts: after the login request
`main` hands the HTTP client exactly one more request, a POST whose body is the content of
the file named FILE, byte for byte, and whose URL has no fragment and the request target
`BASE ++ "/lists?name=" ++ LISTNAME` for `create` (path `BASE ++ "/lists"`, query
`"name=" ++ LISTNAME`) and `BASE ++ "/lists/" ++ LISTNAME` for `update` (which is the
decoded path as well, with no query). -/
theorem main_create_update_upload (w : World) (decodeErr : GoString → GoString)
    (configFile : Configuration)
    (url authority base prog listname file content jwt : GoString)
    (hurl : url = go "https://" ++ authority ++ base)
    (hhost : ∀ b ∈ authority, b ∈ neturl.hostChars)
    (hbase : ∀ b ∈ base, b ∈ neturl.pathChars)
    (hslash : base = [] ∨ base.head? = some 47)
    (hauth : (ServerAuthenticate w decodeErr url configFile.ClientUsername
      configFile.ClientPassword).ret = (jwt, none))
    (hname : ∀ b ∈ listname, b ∈ queryChars) (hfilename : ∀ b ∈ file, b ∈ queryChars)
    (hfrag : 35 ∉ listname)
    (hfile : w.readFile file = .ok content) :
    (w.newRequest (url ++ (go "/lists?name=" ++ listname)) = none →
      ∃ p r u, main w decodeErr url configFile [prog, go "create", listname, file] = some p ∧
        p.sent = (ServerAuthenticate w decodeErr url configFile.ClientUsername
          configFile.ClientPassword).sent ++ [r] ∧
        r = ⟨go "POST", url ++ (go "/lists?name=" ++ listname),
          (if jwt = [] then [] else [(go "Authorization", go "Bearer " ++ jwt)]) ++
            [(go "Content-Type", go "application/json")], some (.raw content)⟩ ∧
        neturl.Parse r.url = some u ∧
        u.Path = base ++ go "/lists" ∧ u.RawQuery = go "name=" ++ listname ∧
        u.Fragment = [] ∧ u.RequestURI = base ++ go "/lists?name=" ++ listname) ∧
    (w.newRequest (url ++ (go "/lists/" ++ listname)) = none →
      37 ∉ listname → 94 ∉ listname →
      ∃ p r u, main w decodeErr url configFile [prog, go "update", listname, file] = some p ∧
        p.sent = (ServerAuthenticate w decodeErr url configFile.ClientUsername
          configFile.ClientPassword).sent ++ [r] ∧
        r = ⟨go "POST", url ++ (go "/lists/" ++ listname),
          (if jwt = [] then [] else [(go "Authorization", go "Bearer " ++ jwt)]) ++
            [(go "Content-Type", go "application/json")], some (.raw content)⟩ ∧
        neturl.Parse r.url = some u ∧
        u.Path = base ++ go "/lists/" ++ listname ∧ u.RawQuery = [] ∧
        u.Fragment = [] ∧ u.RequestURI = base ++ go "/lists/" ++ listname) := by
  have hsent := main_list_commands_sent w decodeErr url configFile prog listname file content
    jwt hauth hname hfilename hfile
  constructor
  · intro hnew
    obtain ⟨p, hp, hps⟩ := hsent.1 hnew
    obtain ⟨u, hu, _, h2, h3, h4, h5⟩ :=
      neturl.Parse_create authority base listname hhost hbase hslash hname hfrag
    exact ⟨p, _, u, hp, hps, rfl, by rw [hurl]; exact hu, h2, h3, h4, h5⟩
  · intro hnew hpct hcaret
    obtain ⟨p, hp, hps⟩ := hsent.2 hnew
    obtain ⟨u, hu, _, h2, h3, h4, h5⟩ :=
      neturl.Parse_update authority base listname hhost hbase hslash hname hfrag hpct hcaret
    exact ⟨p, _, u, hp, hps, rfl, by rw [hurl]; exact hu, h2, h3, h4, h5⟩

/-- An instance of C13: `create mylist hashes.txt` and `update mylist hashes.txt` for the
server `https://oha.example:8080/api`, the file holding `h1\nh2\n` and the login returning
the token `abc`. -/
theorem main_create_update_upload_witness :
    (go "https://oha.example:8080/api" = go "https://" ++ go "oha.example:8080" ++ go "/api" ∧
      (∀ b ∈ go "oha.example:8080", b ∈ neturl.hostChars) ∧
      (∀ b ∈ go "/api", b ∈ neturl.pathChars) ∧
      (ServerAuthenticate (exampleWorld (go "h1\nh2\n") tokenResponse) (fun t => t)
        (go "https://oha.example:8080/api") (go "admin") (go "Correct-Horse-1")).ret
        = (go "abc", none) ∧
      (∀ b ∈ go "mylist", b ∈ queryChars) ∧ (∀ b ∈ go "hashes.txt", b ∈ queryChars) ∧
      35 ∉ go "mylist" ∧ 37 ∉ go "mylist" ∧ 94 ∉ go "mylist" ∧
      (exampleWorld (go "h1\nh2\n") tokenResponse).readFile (go "hashes.txt")
        = .ok (go "h1\nh2\n")) ∧
    (∃ p r u, main (exampleWorld (go "h1\nh2\n") tokenResponse) (fun t => t)
        (go "https://oha.example:8080/api")
        ⟨go "oha.example", go "8080", go "/api", go "admin", go "Correct-Horse-1"⟩
        [go "ohaclient", go "create", go "mylist", go "hashes.txt"] = some p ∧
      p.sent = [loginRequest (go "https://oha.example:8080/api") (go "admin")
          (go "Correct-Horse-1")] ++ [r] ∧
      r = ⟨go "POST", go "https://oha.example:8080/api/lists?name=mylist",
          [(go "Authorization", go "Bearer abc"), (go "Content-Type", go "application/json")],
          some (.raw (go "h1\nh2\n"))⟩ ∧
      neturl.Parse r.url = some u ∧
      u.Path = go "/api/lists" ∧ u.RawQuery = go "name=mylist" ∧
      u.Fragment = [] ∧ u.RequestURI = go "/api/lists?name=mylist") ∧
    (∃ p r u, main (exampleWorld (go "h1\nh2\n") tokenResponse) (fun t => t)
        (go "https://oha.example:8080/api")
        ⟨go "oha.example", go "8080", go "/api", go "admin", go "Correct-Horse-1"⟩
        [go "ohaclient", go "update", go "mylist", go "hashes.txt"] = some p ∧
      p.sent = [loginRequest (go "https://oha.example:8080/api") (go "admin")
          (go "Correct-Horse-1")] ++ [r] ∧
      r = ⟨go "POST", go "https://oha.example:8080/api/lists/mylist",
          [(go "Authorization", go "Bearer abc"), (go "Content-Type", go "application/json")],
          some (.raw (go "h1\nh2\n"))⟩ ∧
      neturl.Parse r.url = some u ∧
      u.Path = go "/api/lists/mylist" ∧ u.RawQuery = [] ∧
      u.Fragment = [] ∧ u.RequestURI = go "/api/lists/mylist") :=
  ⟨⟨by decide, by decide, by decide, by decide, by decide, by decide, by decide, by decide,
      by decide, rfl⟩,
    (main_create_update_upload (exampleWorld (go "h1\nh2\n") tokenResponse) (fun t => t)
      ⟨go "oha.example", go "8080", go "/api", go "admin", go "Correct-Horse-1"⟩
      (go "https://oha.example:8080/api") (go "oha.example:8080") (go "/api")
      (go "ohaclient") (go "mylist") (go "hashes.txt") (go "h1\nh2\n") (go "abc")
      (by decide) (by decide) (by decide) (by decide) (by decide) (by decide) (by decide)
      (by decide) rfl).1 rfl,
    (main_create_update_upload (exampleWorld (go "h1\nh2\n") tokenResponse) (fun t => t)
      ⟨go "oha.example", go "8080", go "/api", go "admin", go "Correct-Horse-1"⟩
      (go "https://oha.example:8080/api") (go "oha.example:8080") (go "/api")
      (go "ohaclient") (go "mylist") (go "hashes.txt") (go "h1\nh2\n") (go "abc")
      (by decide) (by decide) (by decide) (by decide) (by decide) (by decide) (by decide)
      (by decide) rfl).2 rfl (by decide) (by decide)⟩

/-- C13 as stated fails, for list names that the validator accepts.  For `create a#b` the
request target is `/api/lists?name=a` and for `update a#b` it is `/api/lists/a`: the URL is
cut at the `#`.  For `update a^b` the target is `/api/lists/a%5Eb`, and for `update a%41`
the path of the request is `/api/lists/aA`.  With the server URL
`https://oha.example:8080/api#v1` the target for `create mylist` is `/api`. -/
theorem main_list_name_not_routed :
    ((∀ b ∈ go "a#b", b ∈ queryChars) ∧ (∀ b ∈ go "a^b", b ∈ queryChars) ∧
      (∀ b ∈ go "a%41", b ∈ queryChars)) ∧
    (main (exampleWorld (go "h1\nh2\n") tokenResponse) (fun t => t)
        (go "https://oha.example:8080/api")
        ⟨go "oha.example", go "8080", go "/api", go "admin", go "Correct-Horse-1"⟩
        [go "ohaclient", go "create", go "a#b", go "hashes.txt"]).map
      (fun p => p.sent.map (fun r => (neturl.Parse r.url).map (fun u => u.RequestURI)))
      = some [some (go "/api/login"), some (go "/api/lists?name=a")] ∧
    (main (exampleWorld (go "h1\nh2\n") tokenResponse) (fun t => t)
        (go "https://oha.example:8080/api")
        ⟨go "oha.example", go "8080", go "/api", go "admin", go "Correct-Horse-1"⟩
        [go "ohaclient", go "update", go "a#b", go "hashes.txt"]).map
      (fun p => p.sent.map (fun r => (neturl.Parse r.url).map (fun u => u.RequestURI)))
      = some [some (go "/api/login"), some (go "/api/lists/a")] ∧
    (main (exampleWorld (go "h1\nh2\n") tokenResponse) (fun t => t)
        (go "https://oha.example:8080/api")
        ⟨go "oha.example", go "8080", go "/api", go "admin", go "Correct-Horse-1"⟩
        [go "ohaclient", go "update", go "a^b", go "hashes.txt"]).map
      (fun p => p.sent.map (fun r => (neturl.Parse r.url).map (fun u => u.RequestURI)))
      = some [some (go "/api/login"), some (go "/api/lists/a%5Eb")] ∧
    (main (exampleWorld (go "h1\nh2\n") tokenResponse) (fun t => t)
        (go "https://oha.example:8080/api")
        ⟨go "oha.example", go "8080", go "/api", go "admin", go "Correct-Horse-1"⟩
        [go "ohaclient", go "update", go "a%41", go "hashes.txt"]).map
      (fun p => p.sent.map (fun r => (neturl.Parse r.url).map (fun u => u.Path)))
      = some [some (go "/api/login"), some (go "/api/lists/aA")] ∧
    (main (exampleWorld (go "h1\nh2\n") tokenResponse) (fun t => t)
        (go "https://oha.example:8080/api#v1")
        ⟨go "oha.example", go "8080", go "/api#v1", go "admin", go "Correct-Horse-1"⟩
        [go "ohaclient", go "create", go "mylist", go "hashes.txt"]).map
      (fun p => p.sent.map (fun r => (neturl.Parse r.url).map (fun u => u.RequestURI)))
      = some [some (go "/api"), some (go "/api")] := by
  decide

end main

namespace models

/-- C14, at the failing input: at the index equal to the length of `args`, the first
position without an element, `ValidateIntInputArgs` and `ValidateFileInputArgs` read
`args[index]` and panic, for every `args` and for the command lines `manage` and `search`
without argument; only an index beyond the length gets the error of the guard. -/
theorem validators_panic_at_length (stat : GoString → error) (args : List GoString)
    (k : Nat) :
    ValidateIntInputArgs args args.length = .panicked ∧
    ValidateFileInputArgs stat args args.length = .panicked ∧
    ValidateIntInputArgs [go "ohaclient", go "manage"] 2 = .panicked ∧
    ValidateFileInputArgs stat [go "ohaclient", go "search"] 2 = .panicked ∧
    ValidateIntInputArgs args (args.length + 1 + k) =
      .ret ([], some (go "Invalid Number Input")) ∧
    ValidateFileInputArgs stat args (args.length + 1 + k) =
      .ret ([], some (go "file argument not found")) := by
  have hat : at? args args.length = none := by
    simp [at?]
  have hlt : (args.length : Int) < (args.length : Int) + 1 + (k : Int) := by omega
  refine ⟨?_, ?_, rfl, rfl, ?_, ?_⟩
  · simp [ValidateIntInputArgs, hat]
  · simp [ValidateFileInputArgs, hat]
  · simp [ValidateIntInputArgs, hlt]
  · simp [ValidateFileInputArgs, hlt]

end models

end OHA
